import Mathlib

/-!
# Verification of the keyv-crdt merge engine

Shallow embedding of `src/unnamed/part_001` (the multi-store `KeyvCRDT`
class).  JavaScript objects used as dictionaries (`CRDTDocument`, the
per-writer counter map `CounterValue`) are embedded as canonical
association lists sorted strictly by key: a JS object is a finite map from
string keys to values, and the canonical sorted list is its unique
representative, so structural equality of the embedding coincides with
deep equality of the JS objects.

Numbers are embedded as `Int` (every value exercised by the engine —
timestamps from `Date.now()`, counter contributions, max/min fields — is
an integer in the source and its tests); `NaN`, produced by JS
`Math.max`/`Math.min` on non-numeric operands, gets its own constructor.
The store cascade is modelled per key: each store contributes the
`Option Document` it currently holds for the key under scrutiny, and the
async store calls are assumed to succeed (the model is the success path;
store failures propagate unchanged in the source and are out of scope).
-/

namespace KeyvCrdt

/-- Lexicographic comparison of character lists by code point.
JavaScript's `<`/`>` on strings compares UTF-16 code units; the two
orders agree on all strings without supplementary-plane characters,
which covers every key and writer id the engine handles. -/
def charListLtB : List Char → List Char → Bool
  | [], [] => false
  | [], _ :: _ => true
  | _ :: _, [] => false
  | c1 :: r1, c2 :: r2 =>
    if c1.toNat < c2.toNat then true
    else if c2.toNat < c1.toNat then false
    else charListLtB r1 r2

/-- JS string comparison `a < b` (lexicographic by code unit). -/
def strLtB (a b : String) : Bool :=
  charListLtB a.data b.data

/-- The strict order on keys and writer ids used throughout. -/
def strLt (a b : String) : Prop := strLtB a b = true

instance (a b : String) : Decidable (strLt a b) := by
  unfold strLt
  infer_instance

/-- Primitive JS values, the element type of union-strategy arrays.
(JS `Set` dedups object elements by reference, not structure, so array
elements are modelled as primitives, the only case the engine's tests
and docs exercise.) -/
inductive JsPrim where
  | num : Int → JsPrim
  | str : String → JsPrim
  | bool : Bool → JsPrim
  deriving DecidableEq, Repr

/-- JS values as far as the merge engine inspects them: numbers,
strings, booleans, arrays, and the `NaN` result of numeric coercion
failure.  The engine is otherwise agnostic to the payload. -/
inductive JsValue where
  | num : Int → JsValue
  | str : String → JsValue
  | bool : Bool → JsValue
  | list : List JsPrim → JsValue
  | nan : JsValue
  deriving DecidableEq, Repr

/-- `Math.max(a, b)`: the larger value when both operands are numbers,
`NaN` otherwise (non-numeric operands are outside the engine's use). -/
def jsMax : JsValue → JsValue → JsValue
  | .num a, .num b => .num (max a b)
  | _, _ => .nan

/-- `Math.min(a, b)`. -/
def jsMin : JsValue → JsValue → JsValue
  | .num a, .num b => .num (min a b)
  | _, _ => .nan

/-- Recursion worker for `dedupFirst`; the fuel argument only serves
structural termination and any value at least the list length yields
the ideal recursion. -/
def dedupFirstAux {α : Type} [DecidableEq α] : Nat → List α → List α
  | 0, _ => []
  | _ + 1, [] => []
  | fuel + 1, x :: xs => x :: dedupFirstAux fuel (xs.filter (fun y => y ≠ x))

/-- First-occurrence deduplication, the semantics of
`[...new Set(xs)]` in JS (insertion order, first occurrence kept). -/
def dedupFirst {α : Type} [DecidableEq α] (l : List α) : List α :=
  dedupFirstAux l.length l

/-- `[...new Set([...xs, ...ys])]` for the union strategy; spreading a
non-array throws in JS, which the model leaves outside its scope. -/
def jsSetUnion : JsValue → JsValue → JsValue
  | .list xs, .list ys => .list (dedupFirst (xs ++ ys))
  | a, _ => a

def JsValue.isNum : JsValue → Bool
  | .num _ => true
  | _ => false

/-- `CRDTField<T>` from the source: value, timestamp, deviceId, and the
optional per-device counter map (canonical sorted association list). -/
structure CRDTField where
  v : JsValue
  t : Int
  d : String
  c : Option (List (String × Int)) := none
  deriving DecidableEq, Repr

instance : Inhabited JsValue := ⟨JsValue.nan⟩

instance : Inhabited CRDTField := ⟨{ v := JsValue.nan, t := 0, d := "" }⟩

/-- `FieldMeta` passed to custom merge functions. -/
structure FieldMeta where
  timestamp : Int
  deviceId : String
  deriving DecidableEq, Repr

/-- `MergeStrategy<T>`: a built-in name or a custom merge function. -/
inductive Strategy where
  | lww
  | max
  | min
  | counter
  | union
  | custom : (JsValue → JsValue → FieldMeta → FieldMeta → JsValue) → Strategy

/-- `MergeConfig<T>`: per-field strategy assignment (absent = default). -/
def MergeConfig : Type := String → Option Strategy

/-- `TOMBSTONE_KEY = '_deleted'`. -/
def TOMBSTONE_KEY : String := "_deleted"

/-- `CRDTDocument<T>`: field name → `CRDTField`, as a canonical sorted
association list. -/
abbrev Document : Type := List (String × CRDTField)

/-! ## Canonical sorted association lists -/

/-- Lookup in an association list (JS property access `obj[k]`). -/
def lookupA {β : Type} : List (String × β) → String → Option β
  | [], _ => none
  | (k, v) :: rest, q => if q = k then some v else lookupA rest q

/-- The canonical-form invariant: keys strictly increasing. -/
def SortedMap {β : Type} (m : List (String × β)) : Prop :=
  m.Pairwise (fun p q => strLt p.1 q.1)

instance {β : Type} (m : List (String × β)) : Decidable (SortedMap m) := by
  unfold SortedMap
  infer_instance

/-- Prepend an optional entry (used when a merge may drop a key). -/
def consOpt {β : Type} (k : String) (o : Option β) (rest : List (String × β)) :
    List (String × β) :=
  match o with
  | some v => (k, v) :: rest
  | none => rest

/-- Recursion worker for `mergeSortedWith`; the fuel argument only
serves structural termination and any value at least the sum of the two
list lengths yields the ideal recursion. -/
def mergeSortedWithAux {β : Type} (f : String → Option β → Option β → Option β) :
    Nat → List (String × β) → List (String × β) → List (String × β)
  | 0, _, _ => []
  | _ + 1, [], [] => []
  | fuel + 1, [], (k, v) :: r => consOpt k (f k none (some v)) (mergeSortedWithAux f fuel [] r)
  | fuel + 1, (k, v) :: l, [] => consOpt k (f k (some v) none) (mergeSortedWithAux f fuel l [])
  | fuel + 1, (k1, v1) :: l, (k2, v2) :: r =>
    if strLtB k1 k2 then
      consOpt k1 (f k1 (some v1) none) (mergeSortedWithAux f fuel l ((k2, v2) :: r))
    else if strLtB k2 k1 then
      consOpt k2 (f k2 none (some v2)) (mergeSortedWithAux f fuel ((k1, v1) :: l) r)
    else
      consOpt k1 (f k1 (some v1) (some v2)) (mergeSortedWithAux f fuel l r)

/-- Key-wise merge of two sorted association lists: every key of either
side is passed to `f` together with the values found on each side.  This
is the canonical-form counterpart of iterating over
`new Set([...Object.keys(a), ...Object.keys(b)])`. -/
def mergeSortedWith {β : Type} (f : String → Option β → Option β → Option β)
    (l r : List (String × β)) : List (String × β) :=
  mergeSortedWithAux f (l.length + r.length) l r

/-- Insert/overwrite one key (JS property assignment in canonical form). -/
def insertSorted {β : Type} (k : String) (v : β) :
    List (String × β) → List (String × β)
  | [] => [(k, v)]
  | (k2, v2) :: rest =>
    if strLtB k k2 then (k, v) :: (k2, v2) :: rest
    else if k = k2 then (k, v) :: rest
    else (k2, v2) :: insertSorted k v rest

/-! ## The merge engine (`KeyvCRDT.mergeField` / `mergeDocuments`) -/

/-- Sum of all per-device contributions:
`Object.values(m).reduce((a, b) => a + b, 0)`. -/
def sumCounter (m : List (String × Int)) : Int :=
  (m.map Prod.snd).sum

/-- One entry of the counter merge
(`merged[did] = Math.max(local.c[did], merged[did] ?? 0)` over a copy of
`remote.c`): a device on both sides gets the max, a device only on the
local side gets `max(·, 0)` (the `?? 0` default), a device only on the
remote side keeps its value. -/
def counterEntry : Option Int → Option Int → Option Int
  | some a, some b => some (max a b)
  | some a, none => some (max a 0)
  | none, some b => some b
  | none, none => none

/-- The merged per-device counter map of the `'counter'` branch. -/
def mergeCounters (lc rc : List (String × Int)) : List (String × Int) :=
  mergeSortedWith (fun _ => counterEntry) lc rc

/-- The per-writer rule in the spec's words (for comparison with
`counterEntry`): the maximum of the two known contributions, and a
writer known on only one side keeps that side's contribution. -/
def specCounterEntry : Option Int → Option Int → Option Int
  | some a, some b => some (max a b)
  | some a, none => some a
  | none, some b => some b
  | none, none => none

/-- The LWW comparison used by the tombstone and `'lww'` branches:
larger timestamp wins, ties broken by lexicographically larger deviceId
(`local.d > remote.d ? local : remote`). -/
def mergeBothLww (lf rf : CRDTField) : CRDTField :=
  if lf.t > rf.t then lf
  else if rf.t > lf.t then rf
  else if strLtB rf.d lf.d then lf else rf

/-- `KeyvCRDT.mergeField` (src/unnamed/part_001 lines 343-400). -/
def mergeField (cfg : MergeConfig) (key : String) :
    Option CRDTField → Option CRDTField → Option CRDTField
  | none, ro => ro
  | some lf, none => some lf
  | some lf, some rf =>
    if key = TOMBSTONE_KEY then
      some (mergeBothLww lf rf)
    else
      match (cfg key).getD Strategy.lww with
      | .lww => some (mergeBothLww lf rf)
      | .max =>
        some { v := jsMax lf.v rf.v, t := max lf.t rf.t,
               d := if lf.t ≥ rf.t then lf.d else rf.d }
      | .min =>
        some { v := jsMin lf.v rf.v, t := max lf.t rf.t,
               d := if lf.t ≥ rf.t then lf.d else rf.d }
      | .counter =>
        let m := mergeCounters (lf.c.getD []) (rf.c.getD [])
        some { v := .num (sumCounter m), t := max lf.t rf.t,
               d := if lf.t ≥ rf.t then lf.d else rf.d, c := some m }
      | .union =>
        some { v := jsSetUnion lf.v rf.v, t := max lf.t rf.t,
               d := if lf.t ≥ rf.t then lf.d else rf.d }
      | .custom fn =>
        some { v := fn lf.v rf.v ⟨lf.t, lf.d⟩ ⟨rf.t, rf.d⟩, t := max lf.t rf.t,
               d := if lf.t ≥ rf.t then lf.d else rf.d }

/-- `KeyvCRDT.mergeDocuments` (src/unnamed/part_001 lines 403-421):
key-wise `mergeField` over the union of both key sets. -/
def mergeDocuments (cfg : MergeConfig) (a b : Document) : Document :=
  mergeSortedWith (mergeField cfg) a b

/-! ## The store cascade, modelled per key

Each store is represented by the `Option Document` it currently holds
for the key under scrutiny; a cascade is the ordered list of those. -/

/-- The read-and-merge loop shared by `get`, `set` (with a seed), and
`delete`: `merged = merged ? mergeDocuments(merged, doc) : doc` over the
stores in cascade order, skipping stores that returned nothing. -/
def foldMergeInto (cfg : MergeConfig) (acc : Option Document)
    (stores : List (Option Document)) : Option Document :=
  stores.foldl
    (fun m os =>
      match os with
      | some doc =>
        match m with
        | some m2 => some (mergeDocuments cfg m2 doc)
        | none => some doc
      | none => m)
    acc

/-- `merged[TOMBSTONE_KEY]?.v === true`. -/
def tombstoneTrue (doc : Document) : Bool :=
  match lookupA doc TOMBSTONE_KEY with
  | some f => decide (f.v = JsValue.bool true)
  | none => false

/-- `toPlainObject` (src/unnamed/part_001 lines 326-340): drop the
tombstone; a field carrying a (truthy, i.e. present) counter map projects
to the sum of its contributions, any other field to its stored value. -/
def toPlainObject (doc : Document) : List (String × JsValue) :=
  doc.filterMap (fun p =>
    if p.1 = TOMBSTONE_KEY then none
    else some (p.1,
      match p.2.c with
      | some m => JsValue.num (sumCounter m)
      | none => p.2.v))

/-- Cache promotion: overwrite the first `hit` stores with the merged
document (`stores.slice(0, cacheHitIndex).map(s => s.set(key, merged))`);
with `hit = 0` the source skips the write, which leaves the same state. -/
def promote (merged : Document) : Nat → List (Option Document) → List (Option Document)
  | _, [] => []
  | 0, ss => ss
  | n + 1, _ :: ss => some merged :: promote merged n ss

/-- `KeyvCRDT.get` (src/unnamed/part_001 lines 130-159): read every
store, merge everything found, promote the merged document into the
stores before the first hit, then report absence on a true tombstone and
the plain projection otherwise.  Returns (value reported, new stores). -/
def crdtGet (cfg : MergeConfig) (stores : List (Option Document)) :
    Option (List (String × JsValue)) × List (Option Document) :=
  match foldMergeInto cfg none stores with
  | none => (none, stores)
  | some merged =>
    let hit := stores.findIdx fun os => os.isSome
    let stores2 := promote merged hit stores
    if tombstoneTrue merged then (none, stores2)
    else (some (toPlainObject merged), stores2)

/-- Stamping one updated field in `set`: current timestamp and this
device; a `'counter'`-configured field additionally seeds
`c = { [deviceId]: value }`.  The `as number` cast in the source is
type-level only; the model's integer-valued map represents the numeric
updates the counter strategy is given (a non-numeric counter update
would corrupt the JS sums and is outside the model). -/
def stampField (cfg : MergeConfig) (dId : String) (ts : Int)
    (k : String) (v : JsValue) : CRDTField :=
  match cfg k with
  | some .counter =>
    { v := v, t := ts, d := dId,
      c := some [(dId, match v with | .num n => n | _ => 0)] }
  | _ => { v := v, t := ts, d := dId }

/-- The `newFields` document built by `set`: the cleared tombstone
(`v = false` at the current timestamp) plus one stamped field per entry
of `updates`, assigned in order. -/
def mkNewFields (cfg : MergeConfig) (dId : String) (ts : Int)
    (updates : List (String × JsValue)) : Document :=
  updates.foldl
    (fun acc p => insertSorted p.1 (stampField cfg dId ts p.1 p.2) acc)
    [(TOMBSTONE_KEY, { v := .bool false, t := ts, d := dId })]

/-- `KeyvCRDT.set` (src/unnamed/part_001 lines 168-211): stamp the
updates, fold every store's current document into them via
`mergeDocuments`, then write the merged result to every store. -/
def crdtSet (cfg : MergeConfig) (dId : String) (ts : Int)
    (updates : List (String × JsValue)) (stores : List (Option Document)) :
    List (Option Document) :=
  let newFields := mkNewFields cfg dId ts updates
  let merged := stores.foldl
    (fun m os =>
      match os with
      | some existing => mergeDocuments cfg m existing
      | none => m)
    newFields
  stores.map (fun _ => some merged)

/-- `KeyvCRDT.delete` (src/unnamed/part_001 lines 219-249): merge every
store's document; if nothing was found return `false` and leave the
stores alone, otherwise overwrite the tombstone with `v = true` at the
current timestamp and write the document to every store. -/
def crdtDelete (cfg : MergeConfig) (dId : String) (ts : Int)
    (stores : List (Option Document)) : Bool × List (Option Document) :=
  match foldMergeInto cfg none stores with
  | none => (false, stores)
  | some existing =>
    let tomb := insertSorted TOMBSTONE_KEY
      { v := .bool true, t := ts, d := dId } existing
    (true, stores.map (fun _ => some tomb))

/-- One backing store's `delete(key)` (the stores of this repository are
`Map`-backed: the call returns whether the key was present and removes
it). -/
def storeDelete (os : Option Document) : Bool × Option Document :=
  (os.isSome, none)

/-- `KeyvCRDT.hardDelete` (src/unnamed/part_001 lines 257-260): issue a
physical delete against every store and return whether any reported a
deletion (`results.some(r => r)`). -/
def crdtHardDelete (stores : List (Option Document)) :
    Bool × List (Option Document) :=
  let results := stores.map storeDelete
  ((results.map Prod.fst).any id, results.map Prod.snd)

/-- The per-instance state captured by the constructor. -/
structure KeyvCRDTState (σ : Type) where
  deviceId : String
  mergeConfig : MergeConfig
  stores : List σ

/-- The `KeyvCRDT` constructor (src/unnamed/part_001 lines 112-121):
`throw new Error('KeyvCRDT requires at least one store')` when the
variadic store list is empty, otherwise the instance is created. -/
def mkKeyvCRDT {σ : Type} (deviceId : String) (mergeConfig : MergeConfig)
    (stores : List σ) : Except String (KeyvCRDTState σ) :=
  if stores.isEmpty then .error "KeyvCRDT requires at least one store"
  else .ok ⟨deviceId, mergeConfig, stores⟩

/-! ## Derived notions used by the statements -/

/-- The strategy `mergeField` effectively applies at a key: the tombstone
is hard-wired to LWW, anything else uses
`this.mergeConfig[key] || 'lww'`. -/
def fieldStrategyAt (cfg : MergeConfig) (k : String) : Strategy :=
  if k = TOMBSTONE_KEY then .lww else (cfg k).getD .lww

def JsValue.isNodupList : JsValue → Bool
  | .list xs => decide xs.Nodup
  | _ => false

/-- Contributions present on only one of the two counter maps are
non-negative (`Math.max(x, 0)` is the identity exactly on such values). -/
def oneSidedNonneg (lc rc : List (String × Int)) : Prop :=
  ∀ p ∈ lc, lookupA rc p.1 = none → 0 ≤ p.2

instance (lc rc : List (String × Int)) : Decidable (oneSidedNonneg lc rc) := by
  unfold oneSidedNonneg
  infer_instance

/-- Well-formedness of a stored field for the strategy governing it —
the shape every field actually written by the engine has: max/min fields
hold a number and no counter map, counter fields hold the (canonical)
map whose sum is their value, union fields hold a duplicate-free array.
Custom-strategy fields are excluded (no shape makes a caller-supplied
function idempotent). -/
def FieldWF : Strategy → CRDTField → Prop
  | .lww, _ => True
  | .max, f => f.v.isNum = true ∧ f.c = none
  | .min, f => f.v.isNum = true ∧ f.c = none
  | .counter, f =>
    f.c ≠ none ∧ SortedMap (f.c.getD []) ∧ f.v = .num (sumCounter (f.c.getD []))
  | .union, f => f.v.isNodupList = true ∧ f.c = none
  | .custom _, _ => False

instance (s : Strategy) (f : CRDTField) : Decidable (FieldWF s f) :=
  match s with
  | .lww => isTrue trivial
  | .max => inferInstanceAs (Decidable (_ ∧ _))
  | .min => inferInstanceAs (Decidable (_ ∧ _))
  | .counter => inferInstanceAs (Decidable (_ ∧ _ ∧ _))
  | .union => inferInstanceAs (Decidable (_ ∧ _))
  | .custom _ => isFalse fun h => h

/-- Conditions under which merging two co-resident fields is symmetric:
LWW fields that tie on both timestamp and writer must be identical
(the tie-break `local.d > remote.d ? local : remote` returns the remote
side on a full tie); max/min/counter fields must not tie on timestamp
with distinct writers (the metadata rule
`local.t >= remote.t ? local.d : remote.d` prefers the local side on a
tie); counter contributions known on one side only must be non-negative;
union (insertion order) and custom (arbitrary function) admit no such
guarantee. -/
def FieldCompat : Strategy → CRDTField → CRDTField → Prop
  | .lww, f, g => f.t = g.t → f.d = g.d → f = g
  | .max, f, g => f.t = g.t → f.d = g.d
  | .min, f, g => f.t = g.t → f.d = g.d
  | .counter, f, g =>
    (f.t = g.t → f.d = g.d) ∧
    SortedMap (f.c.getD []) ∧ SortedMap (g.c.getD []) ∧
    oneSidedNonneg (f.c.getD []) (g.c.getD []) ∧
    oneSidedNonneg (g.c.getD []) (f.c.getD [])
  | .union, _, _ => False
  | .custom _, _, _ => False

instance (s : Strategy) (f g : CRDTField) : Decidable (FieldCompat s f g) :=
  match s with
  | .lww => inferInstanceAs (Decidable (_ → _))
  | .max => inferInstanceAs (Decidable (_ → _))
  | .min => inferInstanceAs (Decidable (_ → _))
  | .counter => inferInstanceAs (Decidable (_ ∧ _ ∧ _ ∧ _ ∧ _))
  | .union => isFalse fun h => h
  | .custom _ => isFalse fun h => h

/-- Every field of the document is well-formed for its strategy. -/
def DocWF (cfg : MergeConfig) (a : Document) : Prop :=
  ∀ p ∈ a, FieldWF (fieldStrategyAt cfg p.1) p.2

instance (cfg : MergeConfig) (a : Document) : Decidable (DocWF cfg a) := by
  unfold DocWF
  infer_instance

/-- Every pair of fields the two documents store under a common key is
compatible in the sense of `FieldCompat`. -/
def DocCompat (cfg : MergeConfig) (a b : Document) : Prop :=
  ∀ p ∈ a, ∀ r ∈ b, p.1 = r.1 → FieldCompat (fieldStrategyAt cfg p.1) p.2 r.2

instance (cfg : MergeConfig) (a b : Document) : Decidable (DocCompat cfg a b) := by
  unfold DocCompat
  infer_instance

/-! ## Order lemmas for the key comparison -/

theorem charListLtB_irrefl : ∀ l : List Char, charListLtB l l = false := by
  intro l
  induction l with
  | nil => rfl
  | cons c r ih =>
    rw [charListLtB, if_neg (lt_irrefl _), if_neg (lt_irrefl _)]
    exact ih

theorem charListLtB_trans :
    ∀ a b c : List Char, charListLtB a b = true → charListLtB b c = true →
      charListLtB a c = true := by
  intro a
  induction a with
  | nil =>
    intro b c h1 h2
    cases b with
    | nil => cases h1
    | cons c2 r2 =>
      cases c with
      | nil => cases h2
      | cons c3 r3 => rfl
  | cons c1 r1 ih =>
    intro b c h1 h2
    cases b with
    | nil => cases h1
    | cons c2 r2 =>
      cases c with
      | nil => cases h2
      | cons c3 r3 =>
        rw [charListLtB] at h1 h2
        by_cases ha : c1.toNat < c2.toNat
        · by_cases hb : c2.toNat < c3.toNat
          · rw [charListLtB, if_pos (by omega)]
          · rw [if_neg hb] at h2
            by_cases hb2 : c3.toNat < c2.toNat
            · rw [if_pos hb2] at h2; cases h2
            · rw [charListLtB, if_pos (by omega)]
        · rw [if_neg ha] at h1
          by_cases ha2 : c2.toNat < c1.toNat
          · rw [if_pos ha2] at h1; cases h1
          · rw [if_neg ha2] at h1
            by_cases hb : c2.toNat < c3.toNat
            · rw [charListLtB, if_pos (by omega)]
            · rw [if_neg hb] at h2
              by_cases hb2 : c3.toNat < c2.toNat
              · rw [if_pos hb2] at h2; cases h2
              · rw [if_neg hb2] at h2
                rw [charListLtB, if_neg (by omega), if_neg (by omega)]
                exact ih r2 r3 h1 h2

theorem charListLtB_eq_of_not :
    ∀ a b : List Char, charListLtB a b = false → charListLtB b a = false →
      a = b := by
  intro a
  induction a with
  | nil =>
    intro b h1 _
    cases b with
    | nil => rfl
    | cons c2 r2 => cases h1
  | cons c1 r1 ih =>
    intro b h1 h2
    cases b with
    | nil => cases h2
    | cons c2 r2 =>
      rw [charListLtB] at h1 h2
      by_cases ha : c1.toNat < c2.toNat
      · rw [if_pos ha] at h1; cases h1
      · by_cases ha2 : c2.toNat < c1.toNat
        · rw [if_pos ha2] at h2; cases h2
        · rw [if_neg ha, if_neg ha2] at h1
          rw [if_neg ha2, if_neg ha] at h2
          have hn : c1.toNat = c2.toNat := by omega
          have hc : c1 = c2 := Char.eq_of_val_eq (UInt32.ext hn)
          rw [hc, ih r2 h1 h2]

theorem strLt_irrefl (a : String) : ¬ strLt a a := by
  unfold strLt strLtB
  rw [charListLtB_irrefl]
  exact Bool.false_ne_true

theorem strLt_trans {a b c : String} (h1 : strLt a b) (h2 : strLt b c) :
    strLt a c :=
  charListLtB_trans a.data b.data c.data h1 h2

theorem strLt_ne {a b : String} (h : strLt a b) : a ≠ b :=
  fun he => strLt_irrefl b (he ▸ h)

theorem strLt_asymm {a b : String} (h : strLt a b) : ¬ strLt b a :=
  fun h2 => strLt_irrefl a (strLt_trans h h2)

theorem str_eq_of_not_lt {a b : String} (h1 : ¬ strLt a b) (h2 : ¬ strLt b a) :
    a = b := by
  have hd : a.data = b.data :=
    charListLtB_eq_of_not a.data b.data
      (Bool.not_eq_true _ ▸ h1) (Bool.not_eq_true _ ▸ h2)
  cases a
  cases b
  congr

theorem strLt_of_not_of_ne {a b : String} (h1 : ¬ strLt a b) (h2 : a ≠ b) :
    strLt b a := by
  by_cases h3 : strLt b a
  · exact h3
  · exact absurd (str_eq_of_not_lt h1 h3) h2

/-! ## Association-list lemmas -/

theorem mem_of_lookupA {β : Type} {m : List (String × β)} {q : String} {v : β}
    (h : lookupA m q = some v) : (q, v) ∈ m := by
  induction m with
  | nil => simp [lookupA] at h
  | cons p rest ih =>
    obtain ⟨k, w⟩ := p
    simp only [lookupA] at h
    split at h
    · next hq =>
      cases h
      subst hq
      exact List.mem_cons_self _ _
    · exact List.mem_cons_of_mem _ (ih h)

theorem lookupA_eq_none {β : Type} {m : List (String × β)} {q : String}
    (h : ∀ p ∈ m, q ≠ p.1) : lookupA m q = none := by
  induction m with
  | nil => rfl
  | cons p rest ih =>
    obtain ⟨k, w⟩ := p
    simp only [lookupA]
    rw [if_neg (h (k, w) (List.mem_cons_self _ _))]
    exact ih fun r hr => h r (List.mem_cons_of_mem _ hr)

theorem sortedMap_cons {β : Type} {p : String × β} {rest : List (String × β)}
    (hs : SortedMap (p :: rest)) :
    (∀ r ∈ rest, strLt p.1 r.1) ∧ SortedMap rest := by
  unfold SortedMap at hs
  exact ⟨(List.pairwise_cons.mp hs).1, (List.pairwise_cons.mp hs).2⟩

theorem lookupA_cons_head {β : Type} (k : String) (v : β)
    (rest : List (String × β)) : lookupA ((k, v) :: rest) k = some v := by
  simp [lookupA]

theorem lookupA_cons_ne {β : Type} {q k : String} (v : β)
    (rest : List (String × β)) (hq : q ≠ k) :
    lookupA ((k, v) :: rest) q = lookupA rest q := by
  simp [lookupA, hq]

theorem sortedMap_ext {β : Type} :
    ∀ {a b : List (String × β)}, SortedMap a → SortedMap b →
      (∀ q, lookupA a q = lookupA b q) → a = b := by
  intro a
  induction a with
  | nil =>
    intro b _ _ h
    cases b with
    | nil => rfl
    | cons p rest =>
      obtain ⟨k, w⟩ := p
      have hk := h k
      rw [lookupA_cons_head] at hk
      simp [lookupA] at hk
  | cons p rest ih =>
    intro b hsa hsb h
    obtain ⟨k, w⟩ := p
    cases b with
    | nil =>
      have hk := h k
      rw [lookupA_cons_head] at hk
      simp [lookupA] at hk
    | cons p2 rest2 =>
      obtain ⟨k2, w2⟩ := p2
      have hk : k = k2 := by
        by_cases hlt : strLt k k2
        · exfalso
          have hnone : lookupA ((k2, w2) :: rest2) k = none := by
            apply lookupA_eq_none
            intro r hr
            rcases List.mem_cons.mp hr with hh | hh
            · rw [hh]; exact strLt_ne hlt
            · exact strLt_ne (strLt_trans hlt ((sortedMap_cons hsb).1 r hh))
          have := h k
          rw [lookupA_cons_head, hnone] at this
          cases this
        · by_cases hgt : strLt k2 k
          · exfalso
            have hnone : lookupA ((k, w) :: rest) k2 = none := by
              apply lookupA_eq_none
              intro r hr
              rcases List.mem_cons.mp hr with hh | hh
              · rw [hh]; exact strLt_ne hgt
              · exact strLt_ne (strLt_trans hgt ((sortedMap_cons hsa).1 r hh))
            have := h k2
            rw [lookupA_cons_head, hnone] at this
            cases this
          · exact str_eq_of_not_lt hlt hgt
      subst hk
      have hw : w = w2 := by
        have := h k
        rw [lookupA_cons_head, lookupA_cons_head] at this
        cases this
        rfl
      subst hw
      congr 1
      apply ih (sortedMap_cons hsa).2 (sortedMap_cons hsb).2
      intro q
      by_cases hq : q = k
      · subst hq
        rw [lookupA_eq_none fun r hr => strLt_ne ((sortedMap_cons hsa).1 r hr),
          lookupA_eq_none fun r hr => strLt_ne ((sortedMap_cons hsb).1 r hr)]
      · have := h q
        rwa [lookupA_cons_ne _ _ hq, lookupA_cons_ne _ _ hq] at this

theorem mem_consOpt {β : Type} {k : String} {o : Option β}
    {rest : List (String × β)} {p : String × β} (h : p ∈ consOpt k o rest) :
    p.1 = k ∨ p ∈ rest := by
  cases o with
  | none => exact Or.inr h
  | some v =>
    rcases List.mem_cons.mp h with hh | hh
    · rw [hh]; exact Or.inl rfl
    · exact Or.inr hh

theorem mem_mergeSortedWithAux {β : Type}
    (f : String → Option β → Option β → Option β) :
    ∀ (fuel : Nat) (l r : List (String × β)),
      l.length + r.length ≤ fuel →
      ∀ p ∈ mergeSortedWithAux f fuel l r,
        (∃ w, (p.1, w) ∈ l) ∨ ∃ w, (p.1, w) ∈ r := by
  intro fuel
  induction fuel with
  | zero =>
    intro l r _ p hp
    simp [mergeSortedWithAux] at hp
  | succ fuel ih =>
    intro l r hlen p hp
    cases l with
    | nil =>
      cases r with
      | nil => simp [mergeSortedWithAux] at hp
      | cons q r =>
        obtain ⟨k, v⟩ := q
        rw [mergeSortedWithAux] at hp
        rcases mem_consOpt hp with hh | hh
        · exact Or.inr ⟨v, by rw [hh]; exact List.mem_cons_self _ _⟩
        · rcases ih [] r (by simp at hlen ⊢; omega) p hh with h1 | ⟨w, hw⟩
          · exact Or.inl h1
          · exact Or.inr ⟨w, List.mem_cons_of_mem _ hw⟩
    | cons q l =>
      obtain ⟨k1, v1⟩ := q
      cases r with
      | nil =>
        rw [mergeSortedWithAux] at hp
        rcases mem_consOpt hp with hh | hh
        · exact Or.inl ⟨v1, by rw [hh]; exact List.mem_cons_self _ _⟩
        · rcases ih l [] (by simp at hlen ⊢; omega) p hh with ⟨w, hw⟩ | h1
          · exact Or.inl ⟨w, List.mem_cons_of_mem _ hw⟩
          · exact Or.inr h1
      | cons q2 r =>
        obtain ⟨k2, v2⟩ := q2
        rw [mergeSortedWithAux] at hp
        by_cases h1 : strLtB k1 k2 = true
        · rw [if_pos h1] at hp
          rcases mem_consOpt hp with hh | hh
          · exact Or.inl ⟨v1, by rw [hh]; exact List.mem_cons_self _ _⟩
          · rcases ih l ((k2, v2) :: r) (by simp at hlen ⊢; omega) p hh with
              ⟨w, hw⟩ | ⟨w, hw⟩
            · exact Or.inl ⟨w, List.mem_cons_of_mem _ hw⟩
            · exact Or.inr ⟨w, hw⟩
        · rw [if_neg h1] at hp
          by_cases h2 : strLtB k2 k1 = true
          · rw [if_pos h2] at hp
            rcases mem_consOpt hp with hh | hh
            · exact Or.inr ⟨v2, by rw [hh]; exact List.mem_cons_self _ _⟩
            · rcases ih ((k1, v1) :: l) r (by simp at hlen ⊢; omega) p hh with
                ⟨w, hw⟩ | ⟨w, hw⟩
              · exact Or.inl ⟨w, hw⟩
              · exact Or.inr ⟨w, List.mem_cons_of_mem _ hw⟩
          · rw [if_neg h2] at hp
            rcases mem_consOpt hp with hh | hh
            · exact Or.inl ⟨v1, by rw [hh]; exact List.mem_cons_self _ _⟩
            · rcases ih l r (by simp at hlen ⊢; omega) p hh with ⟨w, hw⟩ | ⟨w, hw⟩
              · exact Or.inl ⟨w, List.mem_cons_of_mem _ hw⟩
              · exact Or.inr ⟨w, List.mem_cons_of_mem _ hw⟩

theorem mem_mergeSortedWith {β : Type}
    (f : String → Option β → Option β → Option β)
    (l r : List (String × β)) (p : String × β)
    (hp : p ∈ mergeSortedWith f l r) :
    (∃ w, (p.1, w) ∈ l) ∨ ∃ w, (p.1, w) ∈ r :=
  mem_mergeSortedWithAux f (l.length + r.length) l r le_rfl p hp

theorem sortedMap_consOpt {β : Type} {k : String} {o : Option β}
    {rest : List (String × β)} (hs : SortedMap rest)
    (hb : ∀ r ∈ rest, strLt k r.1) : SortedMap (consOpt k o rest) := by
  cases o with
  | none => exact hs
  | some v =>
    unfold SortedMap at hs ⊢
    exact List.pairwise_cons.mpr ⟨hb, hs⟩

theorem sortedMap_mergeSortedWithAux {β : Type}
    (f : String → Option β → Option β → Option β) :
    ∀ (fuel : Nat) (l r : List (String × β)),
      l.length + r.length ≤ fuel → SortedMap l → SortedMap r →
      SortedMap (mergeSortedWithAux f fuel l r) := by
  intro fuel
  induction fuel with
  | zero =>
    intro l r _ _ _
    rw [show mergeSortedWithAux f 0 l r = [] from rfl]
    exact List.Pairwise.nil
  | succ fuel ih =>
    intro l r hlen hsl hsr
    cases l with
    | nil =>
      cases r with
      | nil =>
        rw [mergeSortedWithAux]
        exact List.Pairwise.nil
      | cons q r =>
        obtain ⟨k, v⟩ := q
        have hlen2 : ([] : List (String × β)).length + r.length ≤ fuel := by
          simp at hlen ⊢; omega
        rw [mergeSortedWithAux]
        apply sortedMap_consOpt (ih [] r hlen2 List.Pairwise.nil (sortedMap_cons hsr).2)
        intro p hp
        rcases mem_mergeSortedWithAux f fuel [] r hlen2 p hp with ⟨w, hw⟩ | ⟨w, hw⟩
        · simp at hw
        · exact (sortedMap_cons hsr).1 (p.1, w) hw
    | cons q l =>
      obtain ⟨k1, v1⟩ := q
      cases r with
      | nil =>
        have hlen2 : l.length + ([] : List (String × β)).length ≤ fuel := by
          simp at hlen ⊢; omega
        rw [mergeSortedWithAux]
        apply sortedMap_consOpt (ih l [] hlen2 (sortedMap_cons hsl).2 List.Pairwise.nil)
        intro p hp
        rcases mem_mergeSortedWithAux f fuel l [] hlen2 p hp with ⟨w, hw⟩ | ⟨w, hw⟩
        · exact (sortedMap_cons hsl).1 (p.1, w) hw
        · simp at hw
      | cons q2 r =>
        obtain ⟨k2, v2⟩ := q2
        rw [mergeSortedWithAux]
        by_cases h1 : strLtB k1 k2 = true
        · have hlen2 : l.length + ((k2, v2) :: r).length ≤ fuel := by
            simp at hlen ⊢; omega
          rw [if_pos h1]
          apply sortedMap_consOpt (ih l ((k2, v2) :: r) hlen2 (sortedMap_cons hsl).2 hsr)
          intro p hp
          rcases mem_mergeSortedWithAux f fuel l ((k2, v2) :: r) hlen2 p hp with
            ⟨w, hw⟩ | ⟨w, hw⟩
          · exact (sortedMap_cons hsl).1 (p.1, w) hw
          · rcases List.mem_cons.mp hw with hh | hh
            · have hpk : p.1 = k2 := congrArg Prod.fst hh
              rw [hpk]; exact h1
            · exact strLt_trans h1 ((sortedMap_cons hsr).1 (p.1, w) hh)
        · rw [if_neg h1]
          by_cases h2 : strLtB k2 k1 = true
          · have hlen2 : ((k1, v1) :: l).length + r.length ≤ fuel := by
              simp at hlen ⊢; omega
            rw [if_pos h2]
            apply sortedMap_consOpt (ih ((k1, v1) :: l) r hlen2 hsl (sortedMap_cons hsr).2)
            intro p hp
            rcases mem_mergeSortedWithAux f fuel ((k1, v1) :: l) r hlen2 p hp with
              ⟨w, hw⟩ | ⟨w, hw⟩
            · rcases List.mem_cons.mp hw with hh | hh
              · have hpk : p.1 = k1 := congrArg Prod.fst hh
                rw [hpk]; exact h2
              · exact strLt_trans h2 ((sortedMap_cons hsl).1 (p.1, w) hh)
            · exact (sortedMap_cons hsr).1 (p.1, w) hw
          · have hk : k1 = k2 := str_eq_of_not_lt h1 h2
            have hlen2 : l.length + r.length ≤ fuel := by simp at hlen ⊢; omega
            rw [if_neg h2]
            apply sortedMap_consOpt
              (ih l r hlen2 (sortedMap_cons hsl).2 (sortedMap_cons hsr).2)
            intro p hp
            rcases mem_mergeSortedWithAux f fuel l r hlen2 p hp with ⟨w, hw⟩ | ⟨w, hw⟩
            · exact (sortedMap_cons hsl).1 (p.1, w) hw
            · rw [hk]; exact (sortedMap_cons hsr).1 (p.1, w) hw

theorem sortedMap_mergeSortedWith {β : Type}
    (f : String → Option β → Option β → Option β)
    (l r : List (String × β)) (hsl : SortedMap l) (hsr : SortedMap r) :
    SortedMap (mergeSortedWith f l r) :=
  sortedMap_mergeSortedWithAux f (l.length + r.length) l r le_rfl hsl hsr

theorem lookupA_consOpt_self {β : Type} (k : String) (o : Option β)
    (rest : List (String × β)) (hb : ∀ r ∈ rest, k ≠ r.1) :
    lookupA (consOpt k o rest) k = o := by
  cases o with
  | none => exact lookupA_eq_none hb
  | some v => exact lookupA_cons_head k v rest

theorem lookupA_consOpt_ne {β : Type} {q k : String} (o : Option β)
    (rest : List (String × β)) (hq : q ≠ k) :
    lookupA (consOpt k o rest) q = lookupA rest q := by
  cases o with
  | none => rfl
  | some v => exact lookupA_cons_ne v rest hq

theorem lookupA_mergeSortedWithAux {β : Type}
    (f : String → Option β → Option β → Option β)
    (hf : ∀ k, f k none none = none) :
    ∀ (fuel : Nat) (l r : List (String × β)),
      l.length + r.length ≤ fuel → SortedMap l → SortedMap r → ∀ q,
      lookupA (mergeSortedWithAux f fuel l r) q = f q (lookupA l q) (lookupA r q) := by
  intro fuel
  induction fuel with
  | zero =>
    intro l r hlen _ _ q
    cases l with
    | cons q2 l => simp at hlen
    | nil =>
      cases r with
      | cons q2 r => simp at hlen
      | nil => exact (hf q).symm
  | succ fuel ih =>
    intro l r hlen hsl hsr q
    cases l with
    | nil =>
      cases r with
      | nil =>
        rw [mergeSortedWithAux]
        exact (hf q).symm
      | cons q2 r =>
        obtain ⟨k, v⟩ := q2
        have hlen2 : ([] : List (String × β)).length + r.length ≤ fuel := by
          simp at hlen ⊢; omega
        rw [mergeSortedWithAux]
        by_cases hq : q = k
        · subst hq
          rw [lookupA_consOpt_self]
          · rw [lookupA_cons_head]
            rfl
          · intro p hp
            rcases mem_mergeSortedWithAux f fuel [] r hlen2 p hp with ⟨w, hw⟩ | ⟨w, hw⟩
            · simp at hw
            · exact strLt_ne ((sortedMap_cons hsr).1 (p.1, w) hw)
        · rw [lookupA_consOpt_ne _ _ hq,
            ih [] r hlen2 List.Pairwise.nil (sortedMap_cons hsr).2 q,
            lookupA_cons_ne _ _ hq]
    | cons q1 l =>
      obtain ⟨k1, v1⟩ := q1
      cases r with
      | nil =>
        have hlen2 : l.length + ([] : List (String × β)).length ≤ fuel := by
          simp at hlen ⊢; omega
        rw [mergeSortedWithAux]
        by_cases hq : q = k1
        · subst hq
          rw [lookupA_consOpt_self]
          · rw [lookupA_cons_head]
            rfl
          · intro p hp
            rcases mem_mergeSortedWithAux f fuel l [] hlen2 p hp with ⟨w, hw⟩ | ⟨w, hw⟩
            · exact strLt_ne ((sortedMap_cons hsl).1 (p.1, w) hw)
            · simp at hw
        · rw [lookupA_consOpt_ne _ _ hq,
            ih l [] hlen2 (sortedMap_cons hsl).2 List.Pairwise.nil q,
            lookupA_cons_ne _ _ hq]
      | cons q2 r =>
        obtain ⟨k2, v2⟩ := q2
        rw [mergeSortedWithAux]
        by_cases h1 : strLtB k1 k2 = true
        · have hlen2 : l.length + ((k2, v2) :: r).length ≤ fuel := by
            simp at hlen ⊢; omega
          rw [if_pos h1]
          by_cases hq : q = k1
          · subst hq
            have hrn : lookupA ((k2, v2) :: r) q = none := by
              apply lookupA_eq_none
              intro p hp
              rcases List.mem_cons.mp hp with hh | hh
              · rw [hh]; exact strLt_ne h1
              · exact strLt_ne (strLt_trans h1 ((sortedMap_cons hsr).1 p hh))
            rw [lookupA_consOpt_self, lookupA_cons_head, hrn]
            intro p hp
            rcases mem_mergeSortedWithAux f fuel l ((k2, v2) :: r) hlen2 p hp with
              ⟨w, hw⟩ | ⟨w, hw⟩
            · exact strLt_ne ((sortedMap_cons hsl).1 (p.1, w) hw)
            · rcases List.mem_cons.mp hw with hh | hh
              · have hpk : p.1 = k2 := congrArg Prod.fst hh
                rw [hpk]; exact strLt_ne h1
              · exact strLt_ne (strLt_trans h1 ((sortedMap_cons hsr).1 (p.1, w) hh))
          · rw [lookupA_consOpt_ne _ _ hq, ih l ((k2, v2) :: r) hlen2
              (sortedMap_cons hsl).2 hsr q, lookupA_cons_ne _ _ hq]
        · rw [if_neg h1]
          by_cases h2 : strLtB k2 k1 = true
          · have hlen2 : ((k1, v1) :: l).length + r.length ≤ fuel := by
              simp at hlen ⊢; omega
            rw [if_pos h2]
            by_cases hq : q = k2
            · subst hq
              have hln : lookupA ((k1, v1) :: l) q = none := by
                apply lookupA_eq_none
                intro p hp
                rcases List.mem_cons.mp hp with hh | hh
                · rw [hh]; exact strLt_ne h2
                · exact strLt_ne (strLt_trans h2 ((sortedMap_cons hsl).1 p hh))
              rw [lookupA_consOpt_self, lookupA_cons_head, hln]
              intro p hp
              rcases mem_mergeSortedWithAux f fuel ((k1, v1) :: l) r hlen2 p hp with
                ⟨w, hw⟩ | ⟨w, hw⟩
              · rcases List.mem_cons.mp hw with hh | hh
                · have hpk : p.1 = k1 := congrArg Prod.fst hh
                  rw [hpk]; exact strLt_ne h2
                · exact strLt_ne (strLt_trans h2 ((sortedMap_cons hsl).1 (p.1, w) hh))
              · exact strLt_ne ((sortedMap_cons hsr).1 (p.1, w) hw)
            · rw [lookupA_consOpt_ne _ _ hq, ih ((k1, v1) :: l) r hlen2 hsl
                (sortedMap_cons hsr).2 q, lookupA_cons_ne _ _ hq]
          · have hk : k1 = k2 := str_eq_of_not_lt h1 h2
            subst hk
            have hlen2 : l.length + r.length ≤ fuel := by simp at hlen ⊢; omega
            rw [if_neg h2]
            by_cases hq : q = k1
            · subst hq
              rw [lookupA_consOpt_self, lookupA_cons_head, lookupA_cons_head]
              intro p hp
              rcases mem_mergeSortedWithAux f fuel l r hlen2 p hp with ⟨w, hw⟩ | ⟨w, hw⟩
              · exact strLt_ne ((sortedMap_cons hsl).1 (p.1, w) hw)
              · exact strLt_ne ((sortedMap_cons hsr).1 (p.1, w) hw)
            · rw [lookupA_consOpt_ne _ _ hq, ih l r hlen2 (sortedMap_cons hsl).2
                (sortedMap_cons hsr).2 q, lookupA_cons_ne _ _ hq,
                lookupA_cons_ne _ _ hq]

theorem lookupA_mergeSortedWith {β : Type}
    (f : String → Option β → Option β → Option β)
    (hf : ∀ k, f k none none = none)
    (l r : List (String × β)) (hsl : SortedMap l) (hsr : SortedMap r) (q : String) :
    lookupA (mergeSortedWith f l r) q = f q (lookupA l q) (lookupA r q) :=
  lookupA_mergeSortedWithAux f hf (l.length + r.length) l r le_rfl hsl hsr q

theorem lookupA_insertSorted {β : Type} (k : String) (v : β) :
    ∀ (m : List (String × β)) (q : String),
      lookupA (insertSorted k v m) q = if q = k then some v else lookupA m q := by
  intro m
  induction m with
  | nil =>
    intro q
    rw [insertSorted]
    by_cases hq : q = k
    · subst hq; rw [if_pos rfl, lookupA_cons_head]
    · rw [if_neg hq, lookupA_cons_ne _ _ hq]
  | cons p rest ih =>
    intro q
    obtain ⟨k2, w⟩ := p
    rw [insertSorted]
    by_cases h1 : strLtB k k2 = true
    · rw [if_pos h1]
      by_cases hq : q = k
      · subst hq; rw [if_pos rfl, lookupA_cons_head]
      · rw [if_neg hq, lookupA_cons_ne _ _ hq]
    · rw [if_neg h1]
      by_cases h2 : k = k2
      · subst h2
        rw [if_pos rfl]
        by_cases hq : q = k
        · subst hq; rw [if_pos rfl, lookupA_cons_head]
        · rw [if_neg hq, lookupA_cons_ne _ _ hq, lookupA_cons_ne _ _ hq]
      · rw [if_neg h2]
        by_cases hq : q = k
        · have hqk2 : q ≠ k2 := by rw [hq]; exact h2
          rw [if_pos hq, lookupA_cons_ne _ _ hqk2, ih q, if_pos hq]
        · by_cases hq2 : q = k2
          · subst hq2
            rw [if_neg hq, lookupA_cons_head, lookupA_cons_head]
          · rw [if_neg hq, lookupA_cons_ne _ _ hq2, lookupA_cons_ne _ _ hq2, ih q,
              if_neg hq]

theorem mem_insertSorted {β : Type} {k : String} {v : β} :
    ∀ {m : List (String × β)} {p : String × β},
      p ∈ insertSorted k v m → p = (k, v) ∨ p ∈ m := by
  intro m
  induction m with
  | nil =>
    intro p hp
    rw [insertSorted] at hp
    rcases List.mem_cons.mp hp with hh | hh
    · exact Or.inl hh
    · simp at hh
  | cons p2 rest ih =>
    intro p hp
    obtain ⟨k2, w⟩ := p2
    rw [insertSorted] at hp
    by_cases h1 : strLtB k k2 = true
    · rw [if_pos h1] at hp
      rcases List.mem_cons.mp hp with hh | hh
      · exact Or.inl hh
      · exact Or.inr hh
    · rw [if_neg h1] at hp
      by_cases h2 : k = k2
      · rw [if_pos h2] at hp
        rcases List.mem_cons.mp hp with hh | hh
        · exact Or.inl hh
        · exact Or.inr (List.mem_cons_of_mem _ hh)
      · rw [if_neg h2] at hp
        rcases List.mem_cons.mp hp with hh | hh
        · exact Or.inr (by rw [hh]; exact List.mem_cons_self _ _)
        · rcases ih hh with h3 | h3
          · exact Or.inl h3
          · exact Or.inr (List.mem_cons_of_mem _ h3)

theorem sortedMap_insertSorted {β : Type} (k : String) (v : β) :
    ∀ {m : List (String × β)}, SortedMap m → SortedMap (insertSorted k v m) := by
  intro m
  induction m with
  | nil =>
    intro _
    rw [insertSorted]
    unfold SortedMap
    exact List.pairwise_cons.mpr ⟨by intro r hr; simp at hr, List.Pairwise.nil⟩
  | cons p rest ih =>
    intro hs
    obtain ⟨k2, w⟩ := p
    rw [insertSorted]
    by_cases h1 : strLtB k k2 = true
    · rw [if_pos h1]
      unfold SortedMap
      apply List.pairwise_cons.mpr
      constructor
      · intro r hr
        rcases List.mem_cons.mp hr with hh | hh
        · rw [hh]; exact h1
        · exact strLt_trans h1 ((sortedMap_cons hs).1 r hh)
      · exact hs
    · rw [if_neg h1]
      by_cases h2 : k = k2
      · rw [if_pos h2]
        unfold SortedMap
        apply List.pairwise_cons.mpr
        refine ⟨fun r hr => ?_, (sortedMap_cons hs).2⟩
        rw [h2]
        exact (sortedMap_cons hs).1 r hr
      · rw [if_neg h2]
        unfold SortedMap
        apply List.pairwise_cons.mpr
        constructor
        · intro r hr
          rcases mem_insertSorted hr with hh | hh
          · rw [hh]
            exact strLt_of_not_of_ne h1 h2
          · exact (sortedMap_cons hs).1 r hh
        · exact ih (sortedMap_cons hs).2

/-! ## Field-merge lemmas -/

theorem mergeField_some_some (cfg : MergeConfig) (k : String) (lf rf : CRDTField) :
    mergeField cfg k (some lf) (some rf) =
      (match fieldStrategyAt cfg k with
       | .lww => some (mergeBothLww lf rf)
       | .max =>
         some { v := jsMax lf.v rf.v, t := max lf.t rf.t,
                d := if lf.t ≥ rf.t then lf.d else rf.d }
       | .min =>
         some { v := jsMin lf.v rf.v, t := max lf.t rf.t,
                d := if lf.t ≥ rf.t then lf.d else rf.d }
       | .counter =>
         some { v := .num (sumCounter (mergeCounters (lf.c.getD []) (rf.c.getD []))),
                t := max lf.t rf.t, d := if lf.t ≥ rf.t then lf.d else rf.d,
                c := some (mergeCounters (lf.c.getD []) (rf.c.getD [])) }
       | .union =>
         some { v := jsSetUnion lf.v rf.v, t := max lf.t rf.t,
                d := if lf.t ≥ rf.t then lf.d else rf.d }
       | .custom fn =>
         some { v := fn lf.v rf.v ⟨lf.t, lf.d⟩ ⟨rf.t, rf.d⟩, t := max lf.t rf.t,
                d := if lf.t ≥ rf.t then lf.d else rf.d }) := by
  by_cases hk : k = TOMBSTONE_KEY <;> simp [mergeField, fieldStrategyAt, hk]

theorem jsMax_comm (a b : JsValue) : jsMax a b = jsMax b a := by
  cases a <;> cases b <;> simp [jsMax, max_comm]

theorem jsMin_comm (a b : JsValue) : jsMin a b = jsMin b a := by
  cases a <;> cases b <;> simp [jsMin, min_comm]

theorem filter_ne_self {α : Type} [DecidableEq α] {x : α} {xs : List α}
    (h : x ∉ xs) : xs.filter (fun y => y ≠ x) = xs := by
  apply List.filter_eq_self.mpr
  intro a ha
  simp only [ne_eq, decide_eq_true_eq]
  intro he
  exact h (he ▸ ha)

theorem dedupFirstAux_append_self {α : Type} [DecidableEq α] :
    ∀ (fuel : Nat) (xs : List α), xs.Nodup →
      (xs ++ xs).length ≤ fuel → dedupFirstAux fuel (xs ++ xs) = xs := by
  intro fuel
  induction fuel with
  | zero =>
    intro xs _ hlen
    cases xs with
    | nil => rfl
    | cons x xs => simp at hlen
  | succ fuel ih =>
    intro xs hnd hlen
    cases xs with
    | nil => rfl
    | cons x xs =>
      have hx : x ∉ xs := (List.nodup_cons.mp hnd).1
      have hxs := (List.nodup_cons.mp hnd).2
      have he : (x :: xs) ++ (x :: xs) = x :: (xs ++ x :: xs) := rfl
      rw [he, dedupFirstAux]
      congr 1
      have h2 : (x :: xs).filter (fun y => y ≠ x) = xs := by
        rw [List.filter_cons, if_neg (by simp)]
        exact filter_ne_self hx
      rw [List.filter_append, filter_ne_self hx, h2]
      exact ih xs hxs (by simp at hlen ⊢; omega)

theorem dedupFirst_append_self {α : Type} [DecidableEq α] {xs : List α}
    (h : xs.Nodup) : dedupFirst (xs ++ xs) = xs :=
  dedupFirstAux_append_self (xs ++ xs).length xs h le_rfl

theorem sortedMap_mergeCounters {lc rc : List (String × Int)}
    (hl : SortedMap lc) (hr : SortedMap rc) : SortedMap (mergeCounters lc rc) :=
  sortedMap_mergeSortedWith _ lc rc hl hr

theorem lookupA_mergeCounters {lc rc : List (String × Int)}
    (hl : SortedMap lc) (hr : SortedMap rc) (w : String) :
    lookupA (mergeCounters lc rc) w = counterEntry (lookupA lc w) (lookupA rc w) :=
  lookupA_mergeSortedWith _ (fun _ => rfl) lc rc hl hr w

theorem mergeCounters_self {m : List (String × Int)} (hs : SortedMap m) :
    mergeCounters m m = m := by
  apply sortedMap_ext (sortedMap_mergeCounters hs hs) hs
  intro q
  rw [lookupA_mergeCounters hs hs]
  cases h : lookupA m q with
  | none => rfl
  | some a => simp [counterEntry]

theorem mergeCounters_comm {lc rc : List (String × Int)}
    (hl : SortedMap lc) (hr : SortedMap rc)
    (h1 : oneSidedNonneg lc rc) (h2 : oneSidedNonneg rc lc) :
    mergeCounters lc rc = mergeCounters rc lc := by
  apply sortedMap_ext (sortedMap_mergeCounters hl hr) (sortedMap_mergeCounters hr hl)
  intro q
  rw [lookupA_mergeCounters hl hr, lookupA_mergeCounters hr hl]
  cases hql : lookupA lc q with
  | none =>
    cases hqr : lookupA rc q with
    | none => rfl
    | some b =>
      have hb : 0 ≤ b := h2 (q, b) (mem_of_lookupA hqr) hql
      simp [counterEntry, max_eq_left hb]
  | some a =>
    cases hqr : lookupA rc q with
    | none =>
      have ha : 0 ≤ a := h1 (q, a) (mem_of_lookupA hql) hqr
      simp [counterEntry, max_eq_left ha]
    | some b => simp [counterEntry, max_comm]

theorem mergeBothLww_comm {lf rf : CRDTField}
    (hc : lf.t = rf.t → lf.d = rf.d → lf = rf) :
    mergeBothLww lf rf = mergeBothLww rf lf := by
  unfold mergeBothLww
  rcases lt_trichotomy lf.t rf.t with hlt | heq | hgt
  · rw [if_neg (show ¬ lf.t > rf.t by omega), if_pos (show rf.t > lf.t by omega),
      if_pos (show rf.t > lf.t by omega)]
  · rw [if_neg (show ¬ lf.t > rf.t by omega), if_neg (show ¬ rf.t > lf.t by omega),
      if_neg (show ¬ rf.t > lf.t by omega), if_neg (show ¬ lf.t > rf.t by omega)]
    by_cases hd : strLtB lf.d rf.d = true
    · rw [if_neg (show ¬ strLtB rf.d lf.d = true from strLt_asymm hd), if_pos hd]
    · by_cases hd2 : strLtB rf.d lf.d = true
      · rw [if_pos hd2, if_neg (show ¬ strLtB lf.d rf.d = true from strLt_asymm hd2)]
      · rw [hc heq (str_eq_of_not_lt hd hd2)]
  · rw [if_pos (show lf.t > rf.t by omega), if_neg (show ¬ rf.t > lf.t by omega),
      if_pos (show lf.t > rf.t by omega)]

theorem tieDevice_comm {t1 t2 : Int} {d1 d2 : String} (h : t1 = t2 → d1 = d2) :
    (if t1 ≥ t2 then d1 else d2) = (if t2 ≥ t1 then d2 else d1) := by
  rcases lt_trichotomy t1 t2 with hlt | heq | hgt
  · rw [if_neg (by omega), if_pos (by omega)]
  · rw [if_pos (by omega), if_pos (by omega), h heq]
  · rw [if_pos (by omega), if_neg (by omega)]

theorem mergeField_self (cfg : MergeConfig) (q : String) (f : CRDTField)
    (hwf : FieldWF (fieldStrategyAt cfg q) f) :
    mergeField cfg q (some f) (some f) = some f := by
  rw [mergeField_some_some]
  cases hs : fieldStrategyAt cfg q with
  | lww => simp [mergeBothLww]
  | max =>
    rw [hs] at hwf
    obtain ⟨hnum, hc⟩ := hwf
    obtain ⟨v, t, d, c⟩ := f
    simp only at hc hnum ⊢
    subst hc
    cases v <;> simp [JsValue.isNum] at hnum
    simp [jsMax]
  | min =>
    rw [hs] at hwf
    obtain ⟨hnum, hc⟩ := hwf
    obtain ⟨v, t, d, c⟩ := f
    simp only at hc hnum ⊢
    subst hc
    cases v <;> simp [JsValue.isNum] at hnum
    simp [jsMin]
  | counter =>
    rw [hs] at hwf
    obtain ⟨hcne, hsm, hval⟩ := hwf
    obtain ⟨v, t, d, c⟩ := f
    cases c with
    | none => exact absurd rfl hcne
    | some m =>
      simp only [Option.getD_some] at hsm hval
      simp [mergeCounters_self hsm, hval]
  | union =>
    rw [hs] at hwf
    obtain ⟨hnodup, hc⟩ := hwf
    obtain ⟨v, t, d, c⟩ := f
    simp only at hc hnodup ⊢
    subst hc
    cases v <;> simp [JsValue.isNodupList] at hnodup
    next xs =>
      simp [jsSetUnion, dedupFirst_append_self hnodup]
  | custom fn =>
    rw [hs] at hwf
    exact absurd hwf (fun h => h)

theorem mergeField_comm_opt (cfg : MergeConfig) (q : String)
    (o1 o2 : Option CRDTField)
    (hc : ∀ f g, o1 = some f → o2 = some g →
      FieldCompat (fieldStrategyAt cfg q) f g) :
    mergeField cfg q o1 o2 = mergeField cfg q o2 o1 := by
  cases o1 with
  | none => cases o2 <;> rfl
  | some lf =>
    cases o2 with
    | none => rfl
    | some rf =>
      have hcompat := hc lf rf rfl rfl
      rw [mergeField_some_some, mergeField_some_some]
      cases hs : fieldStrategyAt cfg q with
      | lww =>
        rw [hs] at hcompat
        exact congrArg some (mergeBothLww_comm hcompat)
      | max =>
        rw [hs] at hcompat
        simp only [Option.some.injEq, CRDTField.mk.injEq]
        exact ⟨jsMax_comm _ _, max_comm _ _, tieDevice_comm hcompat, trivial⟩
      | min =>
        rw [hs] at hcompat
        simp only [Option.some.injEq, CRDTField.mk.injEq]
        exact ⟨jsMin_comm _ _, max_comm _ _, tieDevice_comm hcompat, trivial⟩
      | counter =>
        rw [hs] at hcompat
        obtain ⟨hd, hsl, hsr, h1, h2⟩ := hcompat
        have hmaps := mergeCounters_comm hsl hsr h1 h2
        simp only [Option.some.injEq, CRDTField.mk.injEq]
        exact ⟨by rw [hmaps], max_comm _ _, tieDevice_comm hd, by rw [hmaps]⟩
      | union =>
        rw [hs] at hcompat
        exact absurd hcompat (fun h => h)
      | custom fn =>
        rw [hs] at hcompat
        exact absurd hcompat (fun h => h)

/-! ## Document-merge lemmas -/

theorem mergeDocuments_lookup (cfg : MergeConfig) {a b : Document}
    (ha : SortedMap a) (hb : SortedMap b) (q : String) :
    lookupA (mergeDocuments cfg a b) q =
      mergeField cfg q (lookupA a q) (lookupA b q) :=
  lookupA_mergeSortedWith _ (fun _ => rfl) a b ha hb q

theorem sortedMap_mergeDocuments (cfg : MergeConfig) {a b : Document}
    (ha : SortedMap a) (hb : SortedMap b) :
    SortedMap (mergeDocuments cfg a b) :=
  sortedMap_mergeSortedWith _ a b ha hb

/-! ## Store-cascade lemmas -/

theorem foldMergeInto_some (cfg : MergeConfig) :
    ∀ (stores : List (Option Document)) (a : Document),
      foldMergeInto cfg (some a) stores =
        some ((stores.filterMap id).foldl (mergeDocuments cfg) a) := by
  intro stores
  induction stores with
  | nil => intro a; rfl
  | cons os rest ih =>
    intro a
    cases os with
    | none =>
      show foldMergeInto cfg (some a) rest = _
      rw [ih]
      simp [List.filterMap_cons]
    | some doc =>
      show foldMergeInto cfg (some (mergeDocuments cfg a doc)) rest = _
      rw [ih]
      simp [List.filterMap_cons]

theorem foldMergeInto_none_iff (cfg : MergeConfig) :
    ∀ stores : List (Option Document),
      foldMergeInto cfg none stores = none ↔ ∀ os ∈ stores, os = none := by
  intro stores
  induction stores with
  | nil => simp [foldMergeInto]
  | cons os rest ih =>
    cases os with
    | none =>
      constructor
      · intro h os2 hos
        rcases List.mem_cons.mp hos with hh | hh
        · exact hh
        · exact ih.mp h os2 hh
      · intro h
        show foldMergeInto cfg none rest = none
        exact ih.mpr fun os2 hos => h os2 (List.mem_cons_of_mem _ hos)
    | some doc =>
      constructor
      · intro h
        exfalso
        rw [show foldMergeInto cfg none (some doc :: rest) =
          foldMergeInto cfg (some doc) rest from rfl, foldMergeInto_some] at h
        cases h
      · intro h
        cases h (some doc) (List.mem_cons_self _ _)

theorem sortedMap_foldMergeInto (cfg : MergeConfig) :
    ∀ (stores : List (Option Document)) (acc : Option Document) (M : Document),
      foldMergeInto cfg acc stores = some M →
      (∀ a, acc = some a → SortedMap a) →
      (∀ doc, some doc ∈ stores → SortedMap doc) → SortedMap M := by
  intro stores
  induction stores with
  | nil =>
    intro acc M h hacc _
    exact hacc M h
  | cons os rest ih =>
    intro acc M h hacc hdocs
    cases os with
    | none =>
      exact ih acc M h hacc fun doc hdoc => hdocs doc (List.mem_cons_of_mem _ hdoc)
    | some doc =>
      have hdoc : SortedMap doc := hdocs doc (List.mem_cons_self _ _)
      cases acc with
      | none =>
        exact ih (some doc) M h (fun a ha => by cases ha; exact hdoc)
          fun d hd => hdocs d (List.mem_cons_of_mem _ hd)
      | some a =>
        exact ih (some (mergeDocuments cfg a doc)) M h
          (fun b hb => by
            cases hb
            exact sortedMap_mergeDocuments cfg (hacc a rfl) hdoc)
          fun d hd => hdocs d (List.mem_cons_of_mem _ hd)

theorem foldl_skip_none (cfg : MergeConfig) :
    ∀ (stores : List (Option Document)) (a : Document),
      stores.foldl
        (fun m os =>
          match os with
          | some existing => mergeDocuments cfg m existing
          | none => m) a
        = (stores.filterMap id).foldl (mergeDocuments cfg) a := by
  intro stores
  induction stores with
  | nil => intro a; rfl
  | cons os rest ih =>
    intro a
    cases os with
    | none =>
      rw [List.foldl_cons]
      show List.foldl _ a rest = _
      rw [ih]
      simp [List.filterMap_cons]
    | some doc =>
      rw [List.foldl_cons]
      show List.foldl _ (mergeDocuments cfg a doc) rest = _
      rw [ih]
      simp [List.filterMap_cons]

theorem map_const_replicate {α β : Type} (b : β) :
    ∀ l : List α, l.map (fun _ => b) = List.replicate l.length b := by
  intro l
  induction l with
  | nil => rfl
  | cons x xs ih => simp [List.replicate, ih]

theorem lookupA_foldl_insert {γ : Type} :
    ∀ (ups : List (String × γ)) (g : String → γ → CRDTField)
      (init : Document) (q : String),
      (ups.map Prod.fst).Nodup →
      lookupA (ups.foldl (fun acc p => insertSorted p.1 (g p.1 p.2) acc) init) q =
        (match lookupA ups q with
         | some v => some (g q v)
         | none => lookupA init q) := by
  intro ups
  induction ups with
  | nil => intro g init q _; rfl
  | cons p rest ih =>
    intro g init q hnd
    obtain ⟨k, v⟩ := p
    have hk : k ∉ rest.map Prod.fst := (List.nodup_cons.mp hnd).1
    have hnd2 := (List.nodup_cons.mp hnd).2
    rw [List.foldl_cons]
    show lookupA (rest.foldl _ (insertSorted k (g k v) init)) q = _
    rw [ih g _ q hnd2]
    by_cases hq : q = k
    · subst hq
      have hrest : lookupA rest q = none :=
        lookupA_eq_none fun r hr he => hk (he ▸ List.mem_map_of_mem Prod.fst hr)
      rw [hrest, lookupA_cons_head, lookupA_insertSorted, if_pos rfl]
    · rw [lookupA_cons_ne _ _ hq]
      cases hq2 : lookupA rest q with
      | some w => rfl
      | none => rw [lookupA_insertSorted, if_neg hq]

theorem sortedMap_foldl_insert {γ : Type} (g : String → γ → CRDTField) :
    ∀ (ups : List (String × γ)) (init : Document), SortedMap init →
      SortedMap (ups.foldl (fun acc p => insertSorted p.1 (g p.1 p.2) acc) init) := by
  intro ups
  induction ups with
  | nil => intro init hs; exact hs
  | cons p rest ih =>
    intro init hs
    rw [List.foldl_cons]
    exact ih _ (sortedMap_insertSorted _ _ hs)

theorem sortedMap_mkNewFields (cfg : MergeConfig) (dId : String) (ts : Int)
    (updates : List (String × JsValue)) :
    SortedMap (mkNewFields cfg dId ts updates) := by
  unfold mkNewFields
  apply sortedMap_foldl_insert
  unfold SortedMap
  exact List.pairwise_singleton _ _

theorem lookupA_mkNewFields (cfg : MergeConfig) (dId : String) (ts : Int)
    (updates : List (String × JsValue)) (q : String)
    (hnd : (updates.map Prod.fst).Nodup) :
    lookupA (mkNewFields cfg dId ts updates) q =
      (match lookupA updates q with
       | some v => some (stampField cfg dId ts q v)
       | none =>
         if q = TOMBSTONE_KEY
         then some { v := .bool false, t := ts, d := dId }
         else none) := by
  unfold mkNewFields
  rw [lookupA_foldl_insert updates _ _ q hnd]
  cases lookupA updates q with
  | some v => rfl
  | none =>
    show lookupA [(TOMBSTONE_KEY, _)] q = _
    by_cases hq : q = TOMBSTONE_KEY
    · subst hq
      rw [lookupA_cons_head, if_pos rfl]
    · rw [lookupA_cons_ne _ _ hq, if_neg hq]
      rfl

theorem promote_getElem (M : Document) :
    ∀ (ss : List (Option Document)) (n i : Nat),
      (promote M n ss)[i]? =
        if i < n ∧ i < ss.length then some (some M) else ss[i]? := by
  intro ss
  induction ss with
  | nil =>
    intro n i
    cases n <;> simp [promote]
  | cons s ss ih =>
    intro n i
    cases n with
    | zero => simp [promote]
    | succ n =>
      cases i with
      | zero => simp [promote]
      | succ i =>
        rw [show promote M (n + 1) (s :: ss) = some M :: promote M n ss from rfl,
          List.getElem?_cons_succ, ih n i]
        simp [Nat.succ_lt_succ_iff]

theorem mergeBothLww_cases (lf rf : CRDTField) :
    (lf.t > rf.t → mergeBothLww lf rf = lf) ∧
    (rf.t > lf.t → mergeBothLww lf rf = rf) ∧
    (lf.t = rf.t → strLt rf.d lf.d → mergeBothLww lf rf = lf) ∧
    (lf.t = rf.t → strLt lf.d rf.d → mergeBothLww lf rf = rf) := by
  unfold mergeBothLww
  refine ⟨fun h => ?_, fun h => ?_, fun ht hd => ?_, fun ht hd => ?_⟩
  · rw [if_pos h]
  · rw [if_neg (show ¬ lf.t > rf.t by omega), if_pos h]
  · rw [if_neg (show ¬ lf.t > rf.t by omega), if_neg (show ¬ rf.t > lf.t by omega),
      if_pos (show strLtB rf.d lf.d = true from hd)]
  · rw [if_neg (show ¬ lf.t > rf.t by omega), if_neg (show ¬ rf.t > lf.t by omega),
      if_neg (show ¬ strLtB rf.d lf.d = true from strLt_asymm hd)]

theorem lookupA_toPlainObject (doc : Document) (q : String)
    (hq : q ≠ TOMBSTONE_KEY) :
    lookupA (toPlainObject doc) q =
      (lookupA doc q).map (fun f =>
        match f.c with
        | some m => JsValue.num (sumCounter m)
        | none => f.v) := by
  induction doc with
  | nil => rfl
  | cons p rest ih =>
    obtain ⟨k2, f2⟩ := p
    show lookupA (List.filterMap _ ((k2, f2) :: rest)) q = _
    rw [List.filterMap_cons]
    by_cases h2 : k2 = TOMBSTONE_KEY
    · have hqk : q ≠ k2 := fun he => hq (he.trans h2)
      simp only [if_pos h2]
      rw [lookupA_cons_ne _ _ hqk]
      exact ih
    · simp only [if_neg h2]
      by_cases hqk : q = k2
      · subst hqk
        rw [lookupA_cons_head, lookupA_cons_head]
        rfl
      · rw [lookupA_cons_ne _ _ hqk, lookupA_cons_ne _ _ hqk]
        exact ih

/-! ## The claims -/

/-- C1 counterexample: document merge is not commutative as claimed.
Under the `max` strategy with equal timestamps, the merged field keeps
the deviceId of whichever side was the local one
(`local.t >= remote.t ? local.d : remote.d`), so swapping the arguments
changes the result's writer metadata. -/
theorem keyv_c1_counterexample :
    mergeDocuments (fun k => if k = "highScore" then some Strategy.max else none)
        [("highScore", { v := .num 1, t := 5, d := "alpha" })]
        [("highScore", { v := .num 2, t := 5, d := "beta" })] ≠
      mergeDocuments (fun k => if k = "highScore" then some Strategy.max else none)
        [("highScore", { v := .num 2, t := 5, d := "beta" })]
        [("highScore", { v := .num 1, t := 5, d := "alpha" })] := by
  decide

/-- C1 (amended): over the built-in strategies, document merge is
idempotent on documents whose fields are well-formed for their strategy
(`DocWF`), and commutative provided additionally no two co-resident
fields fall into one of the asymmetric cases (`DocCompat`): an LWW or
tombstone tie on both timestamp and writer with different payloads, a
max/min/counter timestamp tie with different writers, a negative counter
contribution known on one side only, a union field pair (argument order
leaks into element order), or a custom merge function. -/
theorem keyv_c1_amended (cfg : MergeConfig) (A B : Document)
    (hA : SortedMap A) (hB : SortedMap B) (hwA : DocWF cfg A)
    (hAB : DocCompat cfg A B) :
    mergeDocuments cfg A A = A ∧
      mergeDocuments cfg A B = mergeDocuments cfg B A := by
  constructor
  · apply sortedMap_ext (sortedMap_mergeDocuments cfg hA hA) hA
    intro q
    rw [mergeDocuments_lookup cfg hA hA]
    cases hq : lookupA A q with
    | none => rfl
    | some f => exact mergeField_self cfg q f (hwA (q, f) (mem_of_lookupA hq))
  · apply sortedMap_ext (sortedMap_mergeDocuments cfg hA hB)
      (sortedMap_mergeDocuments cfg hB hA)
    intro q
    rw [mergeDocuments_lookup cfg hA hB, mergeDocuments_lookup cfg hB hA]
    apply mergeField_comm_opt
    intro f g hf hg
    exact hAB (q, f) (mem_of_lookupA hf) (q, g) (mem_of_lookupA hg) rfl

/-- C1 witness: the amended theorem applied to a concrete mixed
counter/max configuration. -/
theorem keyv_c1_witness :
    mergeDocuments
        (fun k => if k = "coins" then some Strategy.counter
          else if k = "hs" then some Strategy.max else none)
        [("coins", { v := .num 3, t := 1, d := "a", c := some [("a", 3)] }),
         ("hs", { v := .num 7, t := 2, d := "a" })]
        [("coins", { v := .num 3, t := 1, d := "a", c := some [("a", 3)] }),
         ("hs", { v := .num 7, t := 2, d := "a" })]
      = [("coins", { v := .num 3, t := 1, d := "a", c := some [("a", 3)] }),
         ("hs", { v := .num 7, t := 2, d := "a" })] ∧
    mergeDocuments
        (fun k => if k = "coins" then some Strategy.counter
          else if k = "hs" then some Strategy.max else none)
        [("coins", { v := .num 3, t := 1, d := "a", c := some [("a", 3)] }),
         ("hs", { v := .num 7, t := 2, d := "a" })]
        [("coins", { v := .num 5, t := 2, d := "b", c := some [("b", 5)] }),
         ("hs", { v := .num 4, t := 3, d := "b" })]
      = mergeDocuments
        (fun k => if k = "coins" then some Strategy.counter
          else if k = "hs" then some Strategy.max else none)
        [("coins", { v := .num 5, t := 2, d := "b", c := some [("b", 5)] }),
         ("hs", { v := .num 4, t := 3, d := "b" })]
        [("coins", { v := .num 3, t := 1, d := "a", c := some [("a", 3)] }),
         ("hs", { v := .num 7, t := 2, d := "a" })] :=
  keyv_c1_amended
    (fun k => if k = "coins" then some Strategy.counter
      else if k = "hs" then some Strategy.max else none)
    [("coins", { v := .num 3, t := 1, d := "a", c := some [("a", 3)] }),
     ("hs", { v := .num 7, t := 2, d := "a" })]
    [("coins", { v := .num 5, t := 2, d := "b", c := some [("b", 5)] }),
     ("hs", { v := .num 4, t := 3, d := "b" })]
    (by decide) (by decide) (by decide) (by decide)

/-- C2 counterexample: a writer known only on the local side does not
keep its contribution when it is negative — the code's
`Math.max(local.c[did], merged[did] ?? 0)` floors it at 0.  Writer
`alpha` contributed `-5` on the local side only, yet the merged map
records `0`. -/
theorem keyv_c2_counterexample :
    (mergeField (fun k => if k = "coins" then some Strategy.counter else none)
        "coins"
        (some { v := .num (-5), t := 10, d := "alpha", c := some [("alpha", -5)] })
        (some { v := .num 3, t := 10, d := "beta", c := some [("beta", 3)] })).map
        (fun f => lookupA (f.c.getD []) "alpha")
      = some (some 0) ∧
    some (some (0 : Int)) ≠ some (some (-5 : Int)) := by
  decide

/-- C2 (amended): when every contribution on both sides is
non-negative — the only values a grow-only counter is meant to hold —
the merged `perWriterContribution` follows the claimed rule exactly
(`specCounterEntry`: maximum where both sides know the writer,
pass-through where only one does), and the merged value is the sum over
the merged map. -/
theorem keyv_c2_amended (cfg : MergeConfig) (k : String) (lf rf mf : CRDTField)
    (hstrat : fieldStrategyAt cfg k = Strategy.counter)
    (hsl : SortedMap (lf.c.getD [])) (hsr : SortedMap (rf.c.getD []))
    (hnnl : ∀ p ∈ lf.c.getD [], 0 ≤ p.2) (hnnr : ∀ p ∈ rf.c.getD [], 0 ≤ p.2)
    (hm : mergeField cfg k (some lf) (some rf) = some mf) :
    (∀ w, lookupA (mf.c.getD []) w =
      specCounterEntry (lookupA (lf.c.getD []) w) (lookupA (rf.c.getD []) w)) ∧
    mf.v = .num (sumCounter (mf.c.getD [])) := by
  rw [mergeField_some_some, hstrat] at hm
  cases hm
  simp only [Option.getD_some]
  constructor
  · intro w
    rw [lookupA_mergeCounters hsl hsr]
    cases hql : lookupA (lf.c.getD []) w with
    | none =>
      cases hqr : lookupA (rf.c.getD []) w with
      | none => rfl
      | some b => rfl
    | some a =>
      cases hqr : lookupA (rf.c.getD []) w with
      | none =>
        have ha : 0 ≤ a := hnnl (w, a) (mem_of_lookupA hql)
        simp [counterEntry, specCounterEntry, max_eq_left ha]
      | some b => rfl
  · trivial

/-- C2 witness: two writers with disjoint non-negative contributions
sum as claimed. -/
theorem keyv_c2_witness :
    (∀ w, lookupA
        (((mergeField (fun k => if k = "coins" then some Strategy.counter else none)
            "coins"
            (some { v := .num 100, t := 4, d := "mobile", c := some [("mobile", 100)] })
            (some { v := .num 50, t := 6, d := "pc", c := some [("pc", 50)] })).getD
          default).c.getD []) w =
      specCounterEntry (lookupA [("mobile", 100)] w) (lookupA [("pc", 50)] w)) ∧
    ((mergeField (fun k => if k = "coins" then some Strategy.counter else none)
        "coins"
        (some { v := .num 100, t := 4, d := "mobile", c := some [("mobile", 100)] })
        (some { v := .num 50, t := 6, d := "pc", c := some [("pc", 50)] })).getD
      default).v
      = .num (sumCounter
        (((mergeField (fun k => if k = "coins" then some Strategy.counter else none)
            "coins"
            (some { v := .num 100, t := 4, d := "mobile", c := some [("mobile", 100)] })
            (some { v := .num 50, t := 6, d := "pc", c := some [("pc", 50)] })).getD
          default).c.getD [])) :=
  keyv_c2_amended (fun k => if k = "coins" then some Strategy.counter else none)
    "coins"
    { v := .num 100, t := 4, d := "mobile", c := some [("mobile", 100)] }
    { v := .num 50, t := 6, d := "pc", c := some [("pc", 50)] }
    _ rfl (by decide) (by decide) (by decide) (by decide) rfl

/-- C3: two co-resident fields merged under LWW (the explicitly
configured or default strategy) or at the tombstone key: the larger
timestamp wins outright, and on an exact timestamp tie the field whose
writerId is lexicographically greater (`strLt` is JS string `<` by code
unit) wins. -/
theorem keyv_c3 (cfg : MergeConfig) (k : String) (lf rf : CRDTField)
    (hs : k = TOMBSTONE_KEY ∨ cfg k = none ∨ cfg k = some Strategy.lww) :
    (lf.t > rf.t → mergeField cfg k (some lf) (some rf) = some lf) ∧
    (rf.t > lf.t → mergeField cfg k (some lf) (some rf) = some rf) ∧
    (lf.t = rf.t → strLt rf.d lf.d → mergeField cfg k (some lf) (some rf) = some lf) ∧
    (lf.t = rf.t → strLt lf.d rf.d → mergeField cfg k (some lf) (some rf) = some rf) := by
  have hstrat : fieldStrategyAt cfg k = Strategy.lww := by
    unfold fieldStrategyAt
    rcases hs with h | h | h
    · rw [if_pos h]
    · by_cases hk : k = TOMBSTONE_KEY
      · rw [if_pos hk]
      · rw [if_neg hk, h]; rfl
    · by_cases hk : k = TOMBSTONE_KEY
      · rw [if_pos hk]
      · rw [if_neg hk, h]; rfl
  rw [mergeField_some_some, hstrat]
  obtain ⟨h1, h2, h3, h4⟩ := mergeBothLww_cases lf rf
  exact ⟨fun h => by rw [h1 h], fun h => by rw [h2 h],
    fun ht hd => by rw [h3 ht hd], fun ht hd => by rw [h4 ht hd]⟩

/-- C3 witness: the later write wins and, at a tie, the greater
writerId wins, at concrete fields. -/
theorem keyv_c3_witness :
    ((5 : Int) > 3 ∧
      mergeField (fun _ => none) "name"
        (some { v := .str "A", t := 5, d := "x" })
        (some { v := .str "B", t := 3, d := "y" })
        = some { v := .str "A", t := 5, d := "x" }) ∧
    ((7 : Int) = 7 ∧ strLt "deviceA" "deviceZ" ∧
      mergeField (fun _ => none) "name"
        (some { v := .str "C", t := 7, d := "deviceA" })
        (some { v := .str "D", t := 7, d := "deviceZ" })
        = some { v := .str "D", t := 7, d := "deviceZ" }) :=
  ⟨⟨by decide,
    (keyv_c3 (fun _ => none) "name" _ _ (Or.inr (Or.inl rfl))).1 (by decide)⟩,
   ⟨rfl, by decide,
    (keyv_c3 (fun _ => none) "name" _ _ (Or.inr (Or.inl rfl))).2.2.2 rfl (by decide)⟩⟩

/-- C4: `set` reads every store, folds each document found into the
stamped update via `mergeDocuments` (in cascade order), and writes the
single resulting document to every store, so every store ends the
operation holding that same merged document.  The model is the success
path: every store call is assumed to succeed. -/
theorem keyv_c4 (cfg : MergeConfig) (dId : String) (ts : Int)
    (updates : List (String × JsValue)) (stores : List (Option Document)) :
    crdtSet cfg dId ts updates stores =
      List.replicate stores.length
        (some ((stores.filterMap id).foldl (mergeDocuments cfg)
          (mkNewFields cfg dId ts updates))) := by
  unfold crdtSet
  simp only [foldl_skip_none, map_const_replicate]

/-- C5: when the first store holding a document sits at index
`hit > 0`, `get` writes the merged document into every store before
`hit`, leaves the stores from `hit` on untouched, and reports absence
when the merged tombstone is true — the write-back happening either
way. -/
theorem keyv_c5 (cfg : MergeConfig) (stores : List (Option Document))
    (hit : Nat) (M : Document)
    (hhit : stores.findIdx (fun os => os.isSome) = hit) (h0 : 0 < hit)
    (hM : foldMergeInto cfg none stores = some M) :
    (∀ i, i < hit → i < stores.length →
      ((crdtGet cfg stores).2)[i]? = some (some M)) ∧
    (∀ i, hit ≤ i → ((crdtGet cfg stores).2)[i]? = stores[i]?) ∧
    (tombstoneTrue M = true → (crdtGet cfg stores).1 = none) ∧
    (tombstoneTrue M = false → (crdtGet cfg stores).1 = some (toPlainObject M)) := by
  have hg : crdtGet cfg stores =
      (if tombstoneTrue M then none else some (toPlainObject M),
        promote M hit stores) := by
    unfold crdtGet
    rw [hM]
    simp only [hhit]
    by_cases hT : tombstoneTrue M <;> simp [hT]
  refine ⟨fun i h1 h2 => ?_, fun i h1 => ?_, fun hT => ?_, fun hT => ?_⟩
  · rw [hg]
    show (promote M hit stores)[i]? = some (some M)
    rw [promote_getElem, if_pos ⟨h1, h2⟩]
  · rw [hg]
    show (promote M hit stores)[i]? = stores[i]?
    rw [promote_getElem, if_neg (fun hc => absurd hc.1 (not_lt.mpr h1))]
  · rw [hg]
    simp [hT]
  · rw [hg]
    simp [hT]

/-- C5 witness: a value present only in the second store is promoted
into the first by one `get`. -/
theorem keyv_c5_witness :
    ((crdtGet (fun _ => none)
        [none, some [("x", { v := .num 7, t := 3, d := "z" })]]).2)[0]?
      = some (some [("x", { v := .num 7, t := 3, d := "z" })]) ∧
    ((crdtGet (fun _ => none)
        [none, some [("x", { v := .num 7, t := 3, d := "z" })]]).2)[1]?
      = some (some [("x", { v := .num 7, t := 3, d := "z" })]) ∧
    (crdtGet (fun _ => none)
        [none, some [("x", { v := .num 7, t := 3, d := "z" })]]).1
      = some [("x", JsValue.num 7)] :=
  ⟨(keyv_c5 (fun _ => none) [none, some [("x", { v := .num 7, t := 3, d := "z" })]]
      1 [("x", { v := .num 7, t := 3, d := "z" })]
      (by decide) (by decide) (by decide)).1 0 (by decide) (by decide),
   (keyv_c5 (fun _ => none) [none, some [("x", { v := .num 7, t := 3, d := "z" })]]
      1 [("x", { v := .num 7, t := 3, d := "z" })]
      (by decide) (by decide) (by decide)).2.1 1 (by decide),
   (keyv_c5 (fun _ => none) [none, some [("x", { v := .num 7, t := 3, d := "z" })]]
      1 [("x", { v := .num 7, t := 3, d := "z" })]
      (by decide) (by decide) (by decide)).2.2.2 (by decide)⟩

/-- C6: the tombstone/edit race.  Reviving: a `set` whose timestamp is
later than the tombstone's clears it (`v = false` at the set's
timestamp) and a subsequent `get` returns the record with the edited
value.  Staying deleted: a tombstone written by `delete` at a timestamp
later than a set's survives the merge with that set's fields and `get`
reports absence. -/
theorem keyv_c6 :
    (∀ (cfg : MergeConfig) (D : Document) (w : String) (tSet : Int)
      (ups : List (String × JsValue)) (k : String) (v : JsValue)
      (td : CRDTField),
      SortedMap D →
      lookupA D TOMBSTONE_KEY = some td →
      td.v = .bool true →
      td.t < tSet →
      (ups.map Prod.fst).Nodup →
      lookupA ups TOMBSTONE_KEY = none →
      lookupA ups k = some v →
      k ≠ TOMBSTONE_KEY →
      cfg k = none →
      (∀ g, lookupA D k = some g → g.t < tSet) →
      ∃ M, crdtSet cfg w tSet ups [some D] = [some M] ∧
        lookupA M TOMBSTONE_KEY = some { v := .bool false, t := tSet, d := w } ∧
        (crdtGet cfg [some M]).1 = some (toPlainObject M) ∧
        lookupA (toPlainObject M) k = some v) ∧
    (∀ (cfg : MergeConfig) (E : Document) (wD wS : String) (tDel tS : Int)
      (ups : List (String × JsValue)),
      SortedMap E →
      tS < tDel →
      (ups.map Prod.fst).Nodup →
      lookupA ups TOMBSTONE_KEY = none →
      crdtDelete cfg wD tDel [some E] =
        (true, [some (insertSorted TOMBSTONE_KEY
          { v := .bool true, t := tDel, d := wD } E)]) ∧
      lookupA (mergeDocuments cfg (mkNewFields cfg wS tS ups)
          (insertSorted TOMBSTONE_KEY { v := .bool true, t := tDel, d := wD } E))
          TOMBSTONE_KEY
        = some { v := .bool true, t := tDel, d := wD } ∧
      (crdtGet cfg [some (mergeDocuments cfg (mkNewFields cfg wS tS ups)
          (insertSorted TOMBSTONE_KEY { v := .bool true, t := tDel, d := wD } E))]).1
        = none) := by
  constructor
  · intro cfg D w tSet ups k v td hD htomb htv ht hnd hnt hk hkt hcfgk hDk
    set N := mkNewFields cfg w tSet ups with hN
    have hsN : SortedMap N := sortedMap_mkNewFields cfg w tSet ups
    have hNtomb : lookupA N TOMBSTONE_KEY =
        some { v := .bool false, t := tSet, d := w } := by
      rw [hN, lookupA_mkNewFields _ _ _ _ _ hnd, hnt, if_pos rfl]
    have hNk : lookupA N k = some { v := v, t := tSet, d := w } := by
      rw [hN, lookupA_mkNewFields _ _ _ _ _ hnd, hk]
      unfold stampField
      rw [hcfgk]
    set M := mergeDocuments cfg N D with hM
    have hsM : SortedMap M := sortedMap_mergeDocuments cfg hsN hD
    have hset : crdtSet cfg w tSet ups [some D] = [some M] := by
      rw [keyv_c4]
      rfl
    have hMtomb : lookupA M TOMBSTONE_KEY =
        some { v := .bool false, t := tSet, d := w } := by
      rw [hM, mergeDocuments_lookup cfg hsN hD, hNtomb, htomb]
      have hlww : fieldStrategyAt cfg TOMBSTONE_KEY = Strategy.lww := by
        unfold fieldStrategyAt
        rw [if_pos rfl]
      rw [mergeField_some_some, hlww]
      show some (mergeBothLww { v := .bool false, t := tSet, d := w } td) = _
      rw [(mergeBothLww_cases _ td).1 (by simp; omega)]
    have hMk : lookupA M k = some { v := v, t := tSet, d := w } := by
      rw [hM, mergeDocuments_lookup cfg hsN hD, hNk]
      have hstrat : fieldStrategyAt cfg k = Strategy.lww := by
        unfold fieldStrategyAt
        rw [if_neg hkt, hcfgk]
        rfl
      cases hDg : lookupA D k with
      | none => rfl
      | some g =>
        rw [mergeField_some_some, hstrat]
        rw [(mergeBothLww_cases _ g).1 (by simpa using hDk g hDg)]
    have hTf : tombstoneTrue M = false := by
      unfold tombstoneTrue
      rw [hMtomb]
      rfl
    refine ⟨M, hset, hMtomb, ?_, ?_⟩
    · unfold crdtGet
      rw [show foldMergeInto cfg none [some M] = some M from rfl]
      simp only [hTf]
      rfl
    · rw [lookupA_toPlainObject M k hkt, hMk]
      rfl
  · intro cfg E wD wS tDel tS ups hE hts hnd hnt
    set T := insertSorted TOMBSTONE_KEY
      { v := .bool true, t := tDel, d := wD } E with hT
    have hsT : SortedMap T := sortedMap_insertSorted _ _ hE
    set N := mkNewFields cfg wS tS ups with hN
    have hsN : SortedMap N := sortedMap_mkNewFields cfg wS tS ups
    have hNtomb : lookupA N TOMBSTONE_KEY =
        some { v := .bool false, t := tS, d := wS } := by
      rw [hN, lookupA_mkNewFields _ _ _ _ _ hnd, hnt, if_pos rfl]
    have hTtomb : lookupA T TOMBSTONE_KEY =
        some { v := .bool true, t := tDel, d := wD } := by
      rw [hT, lookupA_insertSorted, if_pos rfl]
    have hMtomb : lookupA (mergeDocuments cfg N T) TOMBSTONE_KEY =
        some { v := .bool true, t := tDel, d := wD } := by
      rw [mergeDocuments_lookup cfg hsN hsT, hNtomb, hTtomb]
      have hlww : fieldStrategyAt cfg TOMBSTONE_KEY = Strategy.lww := by
        unfold fieldStrategyAt
        rw [if_pos rfl]
      rw [mergeField_some_some, hlww]
      show some (mergeBothLww { v := .bool false, t := tS, d := wS }
        { v := .bool true, t := tDel, d := wD }) = _
      rw [(mergeBothLww_cases _ _).2.1 (by simp; omega)]
    refine ⟨?_, hMtomb, ?_⟩
    · unfold crdtDelete
      rw [show foldMergeInto cfg none [some E] = some E from rfl]
      rfl
    · have hTt : tombstoneTrue (mergeDocuments cfg N T) = true := by
        unfold tombstoneTrue
        rw [hMtomb]
        rfl
      unfold crdtGet
      rw [show foldMergeInto cfg none [some (mergeDocuments cfg N T)] =
        some (mergeDocuments cfg N T) from rfl]
      simp only [hTt]
      rfl

/-- C6 witness: both directions of the race at concrete timestamps —
a set at 20 revives a tombstone from 10; a delete at 30 survives a set
at 20. -/
theorem keyv_c6_witness :
    (∃ M, crdtSet (fun _ => none) "d2" 20 [("name", .str "New")]
        [some [("_deleted", { v := .bool true, t := 10, d := "d1" }),
               ("name", { v := .str "Old", t := 5, d := "d1" })]] = [some M] ∧
      lookupA M TOMBSTONE_KEY = some { v := .bool false, t := 20, d := "d2" } ∧
      (crdtGet (fun _ => none) [some M]).1 = some (toPlainObject M) ∧
      lookupA (toPlainObject M) "name" = some (.str "New")) ∧
    (crdtDelete (fun _ => none) "d1" 30
        [some [("name", { v := .str "Old", t := 5, d := "d1" })]] =
      (true, [some (insertSorted TOMBSTONE_KEY
        { v := .bool true, t := 30, d := "d1" }
        [("name", { v := .str "Old", t := 5, d := "d1" })])]) ∧
      lookupA (mergeDocuments (fun _ => none)
          (mkNewFields (fun _ => none) "d2" 20 [("name", .str "New")])
          (insertSorted TOMBSTONE_KEY { v := .bool true, t := 30, d := "d1" }
            [("name", { v := .str "Old", t := 5, d := "d1" })]))
          TOMBSTONE_KEY
        = some { v := .bool true, t := 30, d := "d1" } ∧
      (crdtGet (fun _ => none) [some (mergeDocuments (fun _ => none)
          (mkNewFields (fun _ => none) "d2" 20 [("name", .str "New")])
          (insertSorted TOMBSTONE_KEY { v := .bool true, t := 30, d := "d1" }
            [("name", { v := .str "Old", t := 5, d := "d1" })]))]).1
        = none) :=
  ⟨keyv_c6.1 (fun _ => none)
      [("_deleted", { v := .bool true, t := 10, d := "d1" }),
       ("name", { v := .str "Old", t := 5, d := "d1" })]
      "d2" 20 [("name", .str "New")] "name" (.str "New")
      { v := .bool true, t := 10, d := "d1" }
      (by decide) (by decide) (by decide) (by decide) (by decide) (by decide)
      (by decide) (by decide) rfl
      (by intro g hg; cases hg; decide),
   keyv_c6.2 (fun _ => none)
      [("name", { v := .str "Old", t := 5, d := "d1" })]
      "d1" "d2" 30 20 [("name", .str "New")]
      (by decide) (by decide) (by decide) (by decide)⟩

/-- C7: in a counter-field merge the per-writer contribution of every
writer present on either side never decreases (the merged entry is at
least each input entry), the merged field's value is the sum over the
merged map, and `toPlainObject` reports, for any field carrying a
contribution map, the sum over that map as the value the caller
observes. -/
theorem keyv_c7 (cfg : MergeConfig) (k : String) (lf rf mf : CRDTField)
    (hstrat : fieldStrategyAt cfg k = Strategy.counter)
    (hsl : SortedMap (lf.c.getD [])) (hsr : SortedMap (rf.c.getD []))
    (hm : mergeField cfg k (some lf) (some rf) = some mf) :
    (∀ w x, lookupA (lf.c.getD []) w = some x →
      ∃ y, lookupA (mf.c.getD []) w = some y ∧ x ≤ y) ∧
    (∀ w x, lookupA (rf.c.getD []) w = some x →
      ∃ y, lookupA (mf.c.getD []) w = some y ∧ x ≤ y) ∧
    mf.v = .num (sumCounter (mf.c.getD [])) ∧
    (∀ (doc : Document) (q : String) (f : CRDTField) (m : List (String × Int)),
      q ≠ TOMBSTONE_KEY → lookupA doc q = some f → f.c = some m →
      lookupA (toPlainObject doc) q = some (.num (sumCounter m))) := by
  rw [mergeField_some_some, hstrat] at hm
  cases hm
  simp only [Option.getD_some]
  refine ⟨fun w x hx => ?_, fun w x hx => ?_, trivial, fun doc q f m hq hl hc => ?_⟩
  · rw [lookupA_mergeCounters hsl hsr, hx]
    cases hr : lookupA (rf.c.getD []) w with
    | none => exact ⟨max x 0, rfl, le_max_left _ _⟩
    | some b => exact ⟨max x b, rfl, le_max_left _ _⟩
  · rw [lookupA_mergeCounters hsl hsr, hx]
    cases hl2 : lookupA (lf.c.getD []) w with
    | none => exact ⟨x, rfl, le_refl _⟩
    | some a => exact ⟨max a x, rfl, le_max_right _ _⟩
  · rw [lookupA_toPlainObject doc q hq, hl]
    simp [hc]

/-- C7 witness: two writers' contributions both survive the merge
undiminished, and the projection sums a concrete map. -/
theorem keyv_c7_witness :
    (∃ y, lookupA
        (((mergeField (fun q => if q = "coins" then some Strategy.counter else none)
            "coins"
            (some { v := .num 3, t := 1, d := "a", c := some [("a", 3)] })
            (some { v := .num 5, t := 2, d := "b", c := some [("b", 5)] })).getD
          default).c.getD []) "a" = some y ∧ (3 : Int) ≤ y) ∧
    lookupA
      (toPlainObject
        [("coins",
          { v := .num 99, t := 1, d := "a", c := some [("a", 4), ("b", 5)] })])
      "coins" = some (.num (sumCounter [("a", 4), ("b", 5)])) :=
  ⟨(keyv_c7 (fun q => if q = "coins" then some Strategy.counter else none)
      "coins"
      { v := .num 3, t := 1, d := "a", c := some [("a", 3)] }
      { v := .num 5, t := 2, d := "b", c := some [("b", 5)] }
      _ rfl (by decide) (by decide) rfl).1 "a" 3 (by decide),
   (keyv_c7 (fun q => if q = "coins" then some Strategy.counter else none)
      "coins"
      { v := .num 3, t := 1, d := "a", c := some [("a", 3)] }
      { v := .num 5, t := 2, d := "b", c := some [("b", 5)] }
      _ rfl (by decide) (by decide) rfl).2.2.2
     [("coins", { v := .num 99, t := 1, d := "a", c := some [("a", 4), ("b", 5)] })]
     "coins" { v := .num 99, t := 1, d := "a", c := some [("a", 4), ("b", 5)] }
     [("a", 4), ("b", 5)] (by decide) (by decide) rfl⟩

/-- C8: `delete` on stores none of which holds a document returns
`false` and writes nothing; otherwise it returns `true` and writes, to
every store, the merge of all stores' documents with the tombstone
overwritten to `true` at the current timestamp, every other field kept
exactly as merged. -/
theorem keyv_c8 (cfg : MergeConfig) (dId : String) (ts : Int)
    (stores : List (Option Document)) :
    ((∀ os ∈ stores, os = none) → crdtDelete cfg dId ts stores = (false, stores)) ∧
    (∀ M, foldMergeInto cfg none stores = some M →
      crdtDelete cfg dId ts stores =
        (true, List.replicate stores.length
          (some (insertSorted TOMBSTONE_KEY
            { v := .bool true, t := ts, d := dId } M))) ∧
      lookupA (insertSorted TOMBSTONE_KEY { v := .bool true, t := ts, d := dId } M)
          TOMBSTONE_KEY = some { v := .bool true, t := ts, d := dId } ∧
      (∀ k, k ≠ TOMBSTONE_KEY →
        lookupA (insertSorted TOMBSTONE_KEY { v := .bool true, t := ts, d := dId } M) k
          = lookupA M k)) := by
  constructor
  · intro h
    unfold crdtDelete
    rw [(foldMergeInto_none_iff cfg stores).mpr h]
  · intro M hM
    have hd : crdtDelete cfg dId ts stores =
        (true, stores.map (fun _ => some (insertSorted TOMBSTONE_KEY
          { v := .bool true, t := ts, d := dId } M))) := by
      unfold crdtDelete
      rw [hM]
    refine ⟨?_, ?_, fun k hk => ?_⟩
    · rw [hd, map_const_replicate]
    · rw [lookupA_insertSorted, if_pos rfl]
    · rw [lookupA_insertSorted, if_neg hk]

/-- C8 witness: deleting an absent key is a no-op returning false;
deleting a present one tombstones the merged document in every store
and keeps the other fields. -/
theorem keyv_c8_witness :
    crdtDelete (fun _ => none) "dev" 9 [none, none] = (false, [none, none]) ∧
    (crdtDelete (fun _ => none) "dev" 9
        [some [("name", { v := .str "X", t := 2, d := "a" })], none] =
      (true, List.replicate 2
        (some (insertSorted TOMBSTONE_KEY
          ({ v := .bool true, t := 9, d := "dev" } : CRDTField)
          [("name", { v := .str "X", t := 2, d := "a" })]))) ∧
      lookupA (insertSorted TOMBSTONE_KEY
          ({ v := .bool true, t := 9, d := "dev" } : CRDTField)
          [("name", { v := .str "X", t := 2, d := "a" })]) TOMBSTONE_KEY
        = some { v := .bool true, t := 9, d := "dev" } ∧
      lookupA (insertSorted TOMBSTONE_KEY
          ({ v := .bool true, t := 9, d := "dev" } : CRDTField)
          [("name", { v := .str "X", t := 2, d := "a" })]) "name"
        = lookupA [("name", { v := .str "X", t := 2, d := "a" })] "name") :=
  ⟨(keyv_c8 (fun _ => none) "dev" 9 [none, none]).1 (by decide),
   by
    obtain ⟨h1, h2, h3⟩ := (keyv_c8 (fun _ => none) "dev" 9
      [some [("name", { v := .str "X", t := 2, d := "a" })], none]).2
      [("name", { v := .str "X", t := 2, d := "a" })] rfl
    exact ⟨h1, h2, h3 "name" (by decide)⟩⟩

/-- C9: constructing a `KeyvCRDT` with an empty store list fails
immediately with the construction-time error, and any non-empty store
list constructs the instance. -/
theorem keyv_c9 :
    (∀ (σ : Type) (deviceId : String) (cfg : MergeConfig),
      mkKeyvCRDT (σ := σ) deviceId cfg [] =
        .error "KeyvCRDT requires at least one store") ∧
    (∀ (σ : Type) (deviceId : String) (cfg : MergeConfig) (s : σ) (ss : List σ),
      mkKeyvCRDT deviceId cfg (s :: ss) = .ok ⟨deviceId, cfg, s :: ss⟩) :=
  ⟨fun _ _ _ => rfl, fun _ _ _ _ _ => rfl⟩

/-- C10: `hardDelete` returns true exactly when at least one underlying
store's `delete` reported a deletion (the store held the key); with no
store holding the key it returns false. -/
theorem keyv_c10 (stores : List (Option Document)) :
    ((crdtHardDelete stores).1 = true ↔
      ∃ os ∈ stores, (storeDelete os).1 = true) ∧
    ((∀ os ∈ stores, os = none) → (crdtHardDelete stores).1 = false) := by
  have hiff : (crdtHardDelete stores).1 = true ↔
      ∃ os ∈ stores, (storeDelete os).1 = true := by
    unfold crdtHardDelete storeDelete
    simp [List.any_eq_true]
  refine ⟨hiff, fun h => ?_⟩
  cases hb : (crdtHardDelete stores).1
  · rfl
  · exfalso
    obtain ⟨os, hos, hd⟩ := hiff.mp hb
    rw [h os hos] at hd
    cases hd

/-- C10 witness: with one empty store, hardDelete reports false. -/
theorem keyv_c10_witness : (crdtHardDelete [none]).1 = false :=
  (keyv_c10 [none]).2 (by decide)

end KeyvCrdt
